import Mathlib

/-!
Verification development for the `converters` library (`converters/converter.py`).

The library is a declarative object-graph transformation engine: a `Converter`
subclass declares `from_class`/`to_class`, a list of copy rules (`conversions`),
whole-converter options (`converter_options`), type-keyed post-transforms
(`converter_washers`) and an optional ambient-context builder (`build_context`).
This file gives a shallow embedding of the core engine over a universe of
Python-like values (`Val`): rule normalization (`normalize_single_copy_attr`,
`normalize_copy_attrs`), value resolution (`_get_value`), the per-attribute
conversion pipeline (`_normalize_value`, `_convert_child`), instance lifecycle
(`instantiate`, `populate_instance`, `instance_convert`) and the call-stack
scoped context (`_updated_context`), together with theorems checking the
specification's statements about them.

Universe restrictions (documented where they bite): sources and destinations
are dictionaries and lists of `Val` (attribute-bearing objects, dataframe rows
and XML nodes are out of scope); converters are unary functions over `Val`,
nullary callables, or nested converter definitions (method-name / registry
string converters are represented but their dispatch is out of scope); custom
per-rule setters are not represented.  Where the Python code would produce a
value outside this universe the embedding returns the distinguished error
`Err.notInUniverse`; where it would crash with an `AttributeError` or
`TypeError` of the interpreter the embedding returns a corresponding error
constructor.

One semantic limitation: a rule flagged `merge: true` converting into an
existing destination relies on Python mutating, in place and through an
alias, the nested sub-object fetched from the destination, after which the
population step deliberately skips the direct set.  The embedding is
functional, so the aliased mutation is not reflected in the destination and
end-to-end results of merge-flagged rules against an existing destination are
outside the verified envelope; the population-step skip itself, which is what
the claims concern, is modeled faithfully.
-/

/-- Python-like value universe: `None`, booleans, integers, strings, lists and
string-keyed dictionaries (insertion ordered, as Python dicts are). -/
inductive Val where
  | vnone
  | vbool (b : Bool)
  | vint (n : Int)
  | vstr (s : String)
  | vlist (xs : List Val)
  | vdict (fields : List (String × Val))

mutual

/-- Decidable equality for `Val` (manual because of the nested lists). -/
def decEqVal : (a b : Val) → Decidable (a = b)
  | .vnone, .vnone => isTrue rfl
  | .vbool x, .vbool y =>
    match decEq x y with
    | isTrue h => isTrue (by rw [h])
    | isFalse h => isFalse (by intro hh; injection hh; contradiction)
  | .vint x, .vint y =>
    match decEq x y with
    | isTrue h => isTrue (by rw [h])
    | isFalse h => isFalse (by intro hh; injection hh; contradiction)
  | .vstr x, .vstr y =>
    match decEq x y with
    | isTrue h => isTrue (by rw [h])
    | isFalse h => isFalse (by intro hh; injection hh; contradiction)
  | .vlist xs, .vlist ys =>
    match decEqValList xs ys with
    | isTrue h => isTrue (by rw [h])
    | isFalse h => isFalse (by intro hh; injection hh; contradiction)
  | .vdict xs, .vdict ys =>
    match decEqPairList xs ys with
    | isTrue h => isTrue (by rw [h])
    | isFalse h => isFalse (by intro hh; injection hh; contradiction)
  | .vnone, .vbool _ => isFalse (by intro h; exact Val.noConfusion h)
  | .vnone, .vint _ => isFalse (by intro h; exact Val.noConfusion h)
  | .vnone, .vstr _ => isFalse (by intro h; exact Val.noConfusion h)
  | .vnone, .vlist _ => isFalse (by intro h; exact Val.noConfusion h)
  | .vnone, .vdict _ => isFalse (by intro h; exact Val.noConfusion h)
  | .vbool _, .vnone => isFalse (by intro h; exact Val.noConfusion h)
  | .vbool _, .vint _ => isFalse (by intro h; exact Val.noConfusion h)
  | .vbool _, .vstr _ => isFalse (by intro h; exact Val.noConfusion h)
  | .vbool _, .vlist _ => isFalse (by intro h; exact Val.noConfusion h)
  | .vbool _, .vdict _ => isFalse (by intro h; exact Val.noConfusion h)
  | .vint _, .vnone => isFalse (by intro h; exact Val.noConfusion h)
  | .vint _, .vbool _ => isFalse (by intro h; exact Val.noConfusion h)
  | .vint _, .vstr _ => isFalse (by intro h; exact Val.noConfusion h)
  | .vint _, .vlist _ => isFalse (by intro h; exact Val.noConfusion h)
  | .vint _, .vdict _ => isFalse (by intro h; exact Val.noConfusion h)
  | .vstr _, .vnone => isFalse (by intro h; exact Val.noConfusion h)
  | .vstr _, .vbool _ => isFalse (by intro h; exact Val.noConfusion h)
  | .vstr _, .vint _ => isFalse (by intro h; exact Val.noConfusion h)
  | .vstr _, .vlist _ => isFalse (by intro h; exact Val.noConfusion h)
  | .vstr _, .vdict _ => isFalse (by intro h; exact Val.noConfusion h)
  | .vlist _, .vnone => isFalse (by intro h; exact Val.noConfusion h)
  | .vlist _, .vbool _ => isFalse (by intro h; exact Val.noConfusion h)
  | .vlist _, .vint _ => isFalse (by intro h; exact Val.noConfusion h)
  | .vlist _, .vstr _ => isFalse (by intro h; exact Val.noConfusion h)
  | .vlist _, .vdict _ => isFalse (by intro h; exact Val.noConfusion h)
  | .vdict _, .vnone => isFalse (by intro h; exact Val.noConfusion h)
  | .vdict _, .vbool _ => isFalse (by intro h; exact Val.noConfusion h)
  | .vdict _, .vint _ => isFalse (by intro h; exact Val.noConfusion h)
  | .vdict _, .vstr _ => isFalse (by intro h; exact Val.noConfusion h)
  | .vdict _, .vlist _ => isFalse (by intro h; exact Val.noConfusion h)

def decEqValList : (as bs : List Val) → Decidable (as = bs)
  | [], [] => isTrue rfl
  | [], _ :: _ => isFalse (by intro h; exact List.noConfusion h)
  | _ :: _, [] => isFalse (by intro h; exact List.noConfusion h)
  | a :: as, b :: bs =>
    match decEqVal a b, decEqValList as bs with
    | isTrue h1, isTrue h2 => isTrue (by rw [h1, h2])
    | isFalse _, _ => isFalse (by intro hh; injection hh; contradiction)
    | _, isFalse _ => isFalse (by intro hh; injection hh; contradiction)

def decEqPairList : (as bs : List (String × Val)) → Decidable (as = bs)
  | [], [] => isTrue rfl
  | [], _ :: _ => isFalse (by intro h; exact List.noConfusion h)
  | _ :: _, [] => isFalse (by intro h; exact List.noConfusion h)
  | (k1, v1) :: as, (k2, v2) :: bs =>
    match decEq k1 k2, decEqVal v1 v2, decEqPairList as bs with
    | isTrue h1, isTrue h2, isTrue h3 => isTrue (by rw [h1, h2, h3])
    | isFalse _, _, _ =>
      isFalse (by intro hh; injection hh with hp _; injection hp; contradiction)
    | _, isFalse _, _ =>
      isFalse (by intro hh; injection hh with hp _; injection hp; contradiction)
    | _, _, isFalse _ => isFalse (by intro hh; injection hh; contradiction)

end

instance : DecidableEq Val := decEqVal

/-- Association-list lookup of one key in a dictionary body (first match, as a
Python dict has unique keys). -/
def dictLookup (fields : List (String × Val)) (k : String) : Option Val :=
  match fields with
  | [] => none
  | (k1, v) :: rest => if k1 = k then some v else dictLookup rest k

/-- Insertion-ordered update: replace the value at `k` in place if the key
exists, otherwise append the pair.  This is Python dict assignment. -/
def dictUpsert (fields : List (String × Val)) (k : String) (v : Val) :
    List (String × Val) :=
  match fields with
  | [] => [(k, v)]
  | (k1, v1) :: rest =>
    if k1 = k then (k1, v) :: rest else (k1, v1) :: dictUpsert rest k v

/-- Split a character list on a separator (semantics of `String.splitOn` for
a single-character separator, restated structurally so that proofs can
evaluate it). -/
def splitOnChar (sep : Char) (l : List Char) : List (List Char) :=
  match l with
  | [] => [[]]
  | c :: rest =>
    let r := splitOnChar sep rest
    if c = sep then [] :: r
    else
      match r with
      | [] => [[c]]
      | g :: gs => (c :: g) :: gs

/-- Dot-splitting of an attribute path (`path.split('.')`). -/
def strSplitDots (s : String) : List String :=
  (splitOnChar '.' s.data).map fun cs => String.mk cs

/-- Whether an attribute path is deep (`'.' in attr`). -/
def strContainsDot (s : String) : Bool :=
  s.data.any fun c => c = '.'

/-- Parse a decimal numeral (semantics of `String.toNat?`: every character a
digit and the string non-empty). -/
def strToNatQ (s : String) : Option Nat :=
  if s.data ≠ [] && s.data.all fun c => c.isDigit then
    some (s.data.foldl (fun acc c => acc * 10 + (c.toNat - 48)) 0)
  else none

/-- Character-count prefix of a string (`s[:n]`). -/
def strTake (s : String) (n : Nat) : String :=
  String.mk (s.data.take n)

/-- One step of `pydash.get` path traversal: a dict looks the key up, a list
indexes by a numeric key, anything else yields the default (`none`). -/
def pdGetStep (v : Val) (k : String) : Option Val :=
  match v with
  | .vdict fields => dictLookup fields k
  | .vlist xs => (strToNatQ k).bind fun i => xs.get? i
  | _ => none

def pdGetSegs (v : Val) (segs : List String) : Option Val :=
  match segs with
  | [] => some v
  | k :: rest => (pdGetStep v k).bind fun v1 => pdGetSegs v1 rest

/-- Embedding of `pydash.get(obj, path, default)` over the `Val` universe: the
path is split on dots and traversed; a miss returns the default, which we
represent as `none`. -/
def pdGet (v : Val) (path : String) : Option Val :=
  pdGetSegs v (strSplitDots path)

/-- Embedding of `Converter.val_is_collection`: an `Iterable` that is neither a
string nor a dict.  In the universe only lists qualify (ints, bools and `None`
are not iterable in Python; strings and dicts are excluded explicitly). -/
def val_is_collection (v : Val) : Bool :=
  match v with
  | .vlist _ => true
  | _ => false

/-- Python `val == ''` over the universe: only the empty string compares equal
to the empty string. -/
def isEmptyStr (v : Val) : Bool :=
  match v with
  | .vstr s => s = ""
  | _ => false

/-- Embedding of `Converter.pluralize_val`. -/
def pluralize_val (v : Val) : Val := .vlist [v]

/-- Context: the single call-stack scoped mapping (a Python dict). -/
abbrev Ctx := List (String × Val)

/-- Python dict merge of two contexts, keys of `b` overriding keys of `a` and
fresh keys appended in the order of `b`. -/
def mergeCtx (a b : Ctx) : Ctx :=
  b.foldl (fun acc kv => dictUpsert acc kv.1 kv.2) a

/-- Lookup in a context through `pydash.get` (dotted paths supported, as in
`get(self.context, from_attr, _SENTRY)`). -/
def ctxGet (c : Ctx) (path : String) : Option Val :=
  pdGet (.vdict c) path

/-- The `NOS` sentinel, `'--Not On Source--'`: in the source it is a plain
string constant, compared with `is` during normalization and with `==` in
`_get_value`. -/
def NOS : String := "--Not On Source--"

/-- Shape of a value stored under the `default` option before validation: a
literal value, a zero-argument callable, or a one-argument callable (the
latter passes the `Callable` validation but crashes when invoked with no
arguments, which the embedding reports as `Err.callArity`). -/
inductive DefaultSpec where
  | lit (v : Val)
  | fn0 (g : Unit → Val)
  | fn1 (f : Val → Val)

/-- Shape of the `required` option: `False` (the default), `True`, or a
predicate on the resolved value.  A predicate is truthy for the
`if value_requirement:` test in `_normalize_value`. -/
inductive ReqSpec where
  | rfalse
  | rtrue
  | pred (p : Val → Bool)

/-- Shape of the `sort` option: unset/`False`, `True` (compare elements
directly) or a key callable. -/
inductive SortSpec where
  | noSort
  | strue
  | key (f : Val → Val)

/-- Shape of the `filter` option: `_filter_includes_val` inspects the
callable's signature and passes either the value alone or the value and the
whole source. -/
inductive FilterSpec where
  | unary (p : Val → Bool)
  | binary (p : Val → Val → Bool)

/-- Classes usable in `from_class` / `to_class` within the universe. -/
inductive ClassTy where
  | cnone
  | cbool
  | cint
  | cstr
  | clist
  | cdict
  | cobject
deriving DecidableEq

/-- A `from_class`/`to_class` declaration: a single class or a
`typing.Union[...]` of classes. -/
inductive TypeSpec where
  | single (t : ClassTy)
  | union (ts : List ClassTy)
deriving DecidableEq

/-- Python `isinstance` over the universe (`bool` is a subclass of `int`, and
everything is an instance of `object`). -/
def isinst (v : Val) (t : ClassTy) : Bool :=
  match t with
  | .cobject => true
  | .cnone => v = .vnone
  | .cbool => match v with | .vbool _ => true | _ => false
  | .cint => match v with | .vint _ => true | .vbool _ => true | _ => false
  | .cstr => match v with | .vstr _ => true | _ => false
  | .clist => match v with | .vlist _ => true | _ => false
  | .cdict => match v with | .vdict _ => true | _ => false

/-- Embedding of `_utils.is_union_type`. -/
def is_union_type (t : TypeSpec) : Bool :=
  match t with
  | .union _ => true
  | .single _ => false

/-- Embedding of `_utils.is_one_of_union_types`: `any(type(source) is ut or
isinstance(source, ut) for ut in union.__args__)`; the `isinstance` disjunct
subsumes the identity test. -/
def is_one_of_union_types (v : Val) (ts : List ClassTy) : Bool :=
  ts.any fun t => isinst v t

/-- Converter-level options (`converter_options`), with the class defaults of
`Converter.converter_options`. -/
structure ConvOptions where
  convert_nones_to_blanks : Bool := false
  include_nones : Bool := true
  include_empty_strings : Bool := true
  pass_attrs_to_init : Bool := false
  merge_all : Bool := false
  copy_only : Bool := false

/-- Type keys of the `converter_washers` table.  `isinstance` semantics:
`tnumber` matches ints and bools (`numbers.Number`), the others match their
single constructor. -/
inductive TyTag where
  | tnumber
  | tstr
  | tlist
  | tdict
deriving DecidableEq

def tyTagMatches (t : TyTag) (v : Val) : Bool :=
  match t with
  | .tnumber => match v with | .vint _ => true | .vbool _ => true | _ => false
  | .tstr => match v with | .vstr _ => true | _ => false
  | .tlist => match v with | .vlist _ => true | _ => false
  | .tdict => match v with | .vdict _ => true | _ => false

/-- Failure outcomes of the embedded engine.  Constructors mirror the Python
exceptions: `TypeError`s raised by `__init__` and by normalization,
`ValueRequired`, the `ValueError`/`TypeError`s of the sort option, plus
`notInUniverse` for source behaviour the value universe cannot represent and
`outOfFuel` for exhausted recursion fuel (the Python engine recurses without
bound; every theorem quantifies over or supplies sufficient fuel). -/
inductive Err where
  | noFromClass
  | noToClass
  | invalidToClass
  | sourceTypeMismatch
  | invalidRuleSpec
  | typeErrorToField
  | typeErrorFromField
  | typeErrorBadConverter
  | typeErrorBadDefault
  | attributeError
  | valueRequired (name : String) (predicateFailed : Bool)
  | reverseAttrOnInitProperty
  | cannotInstantiate
  | copyOnlyInstantiate
  | sortNotCollection
  | sortBadSpec
  | sortUncomparable
  | notSliceable
  | setterFailed
  | callArity
  | namedConverterOutOfScope
  | notInUniverse
  | outOfFuel
deriving DecidableEq

mutual

/-- A configured per-rule converter: a unary function, a zero-argument
callable (accepted by normalization, crashes at call time), a string (method
name or registry name: representable, but its dispatch is outside the
universe) or a nested `Converter` subclass. -/
inductive ConvSpec where
  | cfun (f : Val → Val)
  | cfun0 (g : Unit → Val)
  | cstr (name : String)
  | csub (c : ConverterDef)

/-- Per-rule copy-attribute options (the `opts` dict of a canonical rule).
`merge` is an `Option Bool` because `opts.get('merge', False)` and
`opts.get('merge', merge_all)` use different fallbacks.  The custom `getter`
receives the source and the from-attribute (the Python getter also receives
`opts`, which strict positivity prevents the embedding from passing). -/
inductive OptsI where
  | mk (converter : Option ConvSpec)
       (converter_wants_nones : Bool)
       (default : Option DefaultSpec)
       (filter : Option FilterSpec)
       (map : Bool)
       (max_len : Option Nat)
       (merge : Option Bool)
       (pluralize : Bool)
       (reverse_attr_name : Option String)
       (required : ReqSpec)
       (sort : SortSpec)
       (kwarg_override : Option Val)
       (customGetter : Option (Val → String → Option Val))
       (skip_wash : Bool)
       (initialization_attribute : Option Bool)
       (pass_instance_to_converter : Bool)

/-- One element of a tuple-form raw rule: a string, the `NOS` sentinel (kept
distinct because normalization compares it with `is`), Python `None`, a unary
or nullary callable, a `Converter` subclass, an options dict, or an integer
(standing for any other non-callable, non-string value). -/
inductive FieldElem where
  | fstr (s : String)
  | fnos
  | fnone
  | fcallable (f : Val → Val)
  | fcall0 (g : Unit → Val)
  | fconv (c : ConverterDef)
  | fopts (o : OptsI)
  | fint (n : Int)

/-- A raw entry of the `conversions` list: a bare string, a bare callable
(unary or nullary), a bare `Converter` subclass, or a tuple of elements. -/
inductive RawRule where
  | rstr (s : String)
  | rcallable (f : Val → Val)
  | rcall0 (g : Unit → Val)
  | rconv (c : ConverterDef)
  | rseq (fs : List FieldElem)

/-- A `Converter` subclass definition: its declared classes, raw rules,
resolved converter options and washers, the optional `build_context` /
`post_convert` hooks and the optional class-level `default_if_nos`. -/
inductive ConverterDef where
  | mk (from_class : Option TypeSpec)
       (to_class : Option TypeSpec)
       (conversions : List RawRule)
       (options : ConvOptions)
       (washers : List (TyTag × (Val → Val)))
       (buildContext : Option (Val → Ctx))
       (postConvert : Option (Val → Val))
       (default_if_nos : Option DefaultSpec)

end

abbrev Opts := OptsI

def Opts.converter : Opts → Option ConvSpec
  | .mk c _ _ _ _ _ _ _ _ _ _ _ _ _ _ _ => c

def Opts.converter_wants_nones : Opts → Bool
  | .mk _ w _ _ _ _ _ _ _ _ _ _ _ _ _ _ => w

def Opts.default : Opts → Option DefaultSpec
  | .mk _ _ d _ _ _ _ _ _ _ _ _ _ _ _ _ => d

def Opts.filter : Opts → Option FilterSpec
  | .mk _ _ _ f _ _ _ _ _ _ _ _ _ _ _ _ => f

def Opts.map : Opts → Bool
  | .mk _ _ _ _ m _ _ _ _ _ _ _ _ _ _ _ => m

def Opts.max_len : Opts → Option Nat
  | .mk _ _ _ _ _ ml _ _ _ _ _ _ _ _ _ _ => ml

def Opts.merge : Opts → Option Bool
  | .mk _ _ _ _ _ _ mg _ _ _ _ _ _ _ _ _ => mg

def Opts.pluralize : Opts → Bool
  | .mk _ _ _ _ _ _ _ p _ _ _ _ _ _ _ _ => p

def Opts.reverse_attr_name : Opts → Option String
  | .mk _ _ _ _ _ _ _ _ r _ _ _ _ _ _ _ => r

def Opts.required : Opts → ReqSpec
  | .mk _ _ _ _ _ _ _ _ _ rq _ _ _ _ _ _ => rq

def Opts.sort : Opts → SortSpec
  | .mk _ _ _ _ _ _ _ _ _ _ s _ _ _ _ _ => s

def Opts.kwarg_override : Opts → Option Val
  | .mk _ _ _ _ _ _ _ _ _ _ _ k _ _ _ _ => k

def Opts.customGetter : Opts → Option (Val → String → Option Val)
  | .mk _ _ _ _ _ _ _ _ _ _ _ _ g _ _ _ => g

def Opts.skip_wash : Opts → Bool
  | .mk _ _ _ _ _ _ _ _ _ _ _ _ _ s _ _ => s

def Opts.initialization_attribute : Opts → Option Bool
  | .mk _ _ _ _ _ _ _ _ _ _ _ _ _ _ i _ => i

def Opts.pass_instance_to_converter : Opts → Bool
  | .mk _ _ _ _ _ _ _ _ _ _ _ _ _ _ _ pi => pi

/-- The empty options dict. -/
def emptyOpts : Opts :=
  .mk none false none none true none none false none .rfalse .noSort none none
    false none false

/-- An options dict holding just a converter. -/
def converterOpts (c : ConvSpec) : Opts :=
  .mk (some c) false none none true none none false none .rfalse .noSort none
    none false none false

/-- An options dict holding just a default. -/
def defaultOpts (d : DefaultSpec) : Opts :=
  .mk none false (some d) none true none none false none .rfalse .noSort none
    none false none false

/-- An options dict holding just a `_kwarg_override` (the shape appended by
`dynamic_copy_attrs` for an extra attribute with no matching rule). -/
def overrideOpts (v : Val) : Opts :=
  .mk none false none none true none none false none .rfalse .noSort (some v)
    none false none false

/-- Replace the `_kwarg_override` entry of an options dict (the in-place
`ca_opts['_kwarg_override'] = v` of `dynamic_copy_attrs`). -/
def Opts.withOverride (o : Opts) (v : Val) : Opts :=
  match o with
  | .mk c w d f m ml mg p r rq s _ g sw i pi =>
    .mk c w d f m ml mg p r rq s (some v) g sw i pi

def ConverterDef.from_class : ConverterDef → Option TypeSpec
  | .mk fc _ _ _ _ _ _ _ => fc

def ConverterDef.to_class : ConverterDef → Option TypeSpec
  | .mk _ tc _ _ _ _ _ _ => tc

def ConverterDef.conversions : ConverterDef → List RawRule
  | .mk _ _ cs _ _ _ _ _ => cs

def ConverterDef.options : ConverterDef → ConvOptions
  | .mk _ _ _ o _ _ _ _ => o

def ConverterDef.washers : ConverterDef → List (TyTag × (Val → Val))
  | .mk _ _ _ _ w _ _ _ => w

def ConverterDef.buildContext : ConverterDef → Option (Val → Ctx)
  | .mk _ _ _ _ _ b _ _ => b

def ConverterDef.postConvert : ConverterDef → Option (Val → Val)
  | .mk _ _ _ _ _ _ p _ => p

def ConverterDef.default_if_nos : ConverterDef → Option DefaultSpec
  | .mk _ _ _ _ _ _ _ d => d

/-- A canonical rule `(to_attr_name, from_attr_name, opts)`. -/
abbrev CanonRule := String × String × Opts

/-- Embedding of `_next_not_on_dest_attr`: `'-not-on-dest-%d' % next(_COUNTER)`
for a monotonically increasing counter. -/
def freshName (n : Nat) : String := "-not-on-dest-" ++ Nat.repr n

/-- Truthiness of a field element under `field[0] or _next_not_on_dest_attr()`:
`None`, the empty string, `0` and `False` are falsy. -/
def fieldTruthy (e : FieldElem) : Bool :=
  match e with
  | .fnone => false
  | .fstr s => s ≠ ""
  | .fint n => n ≠ 0
  | _ => true

/-- A field element placed in the `default` slot of a 3-tuple NOS rule, read
as a `DefaultSpec` where the universe can represent it (a `Converter` subclass
used as a default is callable in Python but not representable here). -/
def fieldAsDefault (e : FieldElem) : Option DefaultSpec :=
  match e with
  | .fstr s => some (.lit (.vstr s))
  | .fnos => some (.lit (.vstr NOS))
  | .fint n => some (.lit (.vint n))
  | .fnone => some (.lit .vnone)
  | .fcall0 g => some (.fn0 g)
  | .fcallable f => some (.fn1 f)
  | _ => none

/-- Embedding of `Converter.normalize_single_copy_attr` (one raw rule to one
canonical triple), threading the fresh-name counter explicitly.  Universe
notes: a 1-tuple or 2-tuple whose destination element is not a string is
returned unchanged by the source (producing a non-string destination that
cannot be represented in `CanonRule`), reported as `Err.notInUniverse`; a
2-tuple whose second element is `None` or a number is returned by the source
with that element in the opts position, and the immediately following
`opts.get('default', ...)` in `normalize_copy_attrs` raises `AttributeError`,
reported here as `Err.attributeError`. -/
def normalize_single_copy_attr (difNos : Option DefaultSpec) (field : RawRule)
    (ctr : Nat) : Except Err (CanonRule × Nat) :=
  match field with
  | .rstr s => .ok ((s, s, emptyOpts), ctr)
  | .rcallable f =>
    .ok ((freshName ctr, "self", converterOpts (.cfun f)), ctr + 1)
  | .rcall0 g =>
    .ok ((freshName ctr, "self", converterOpts (.cfun0 g)), ctr + 1)
  | .rconv c =>
    .ok ((freshName ctr, "self", converterOpts (.csub c)), ctr + 1)
  | .rseq fs =>
    match fs with
    | [e0] =>
      match e0 with
      | .fstr s => .ok ((s, s, emptyOpts), ctr)
      | _ => .error .notInUniverse
    | [e0, e1] =>
      match e1 with
      | .fnos =>
        match e0 with
        | .fstr s =>
          match difNos with
          | some d => .ok ((s, NOS, defaultOpts d), ctr)
          | none => .ok ((s, NOS, emptyOpts), ctr)
        | _ => .error .notInUniverse
      | .fstr src =>
        match e0 with
        | .fstr s => .ok ((s, src, emptyOpts), ctr)
        | _ => .error .notInUniverse
      | .fcallable f =>
        match e0 with
        | .fstr s => .ok ((s, s, converterOpts (.cfun f)), ctr)
        | _ => .error .notInUniverse
      | .fcall0 g =>
        match e0 with
        | .fstr s => .ok ((s, s, converterOpts (.cfun0 g)), ctr)
        | _ => .error .notInUniverse
      | .fconv c =>
        match e0 with
        | .fstr s => .ok ((s, s, converterOpts (.csub c)), ctr)
        | _ => .error .notInUniverse
      | .fopts o =>
        match e0 with
        | .fstr s => .ok ((s, s, o), ctr)
        | _ => .error .notInUniverse
      | .fnone => .error .attributeError
      | .fint _ => .error .attributeError
    | [e0, e1, e2] =>
      let dstCtr : Except Err (String × Nat) :=
        if fieldTruthy e0 then
          match e0 with
          | .fstr s => .ok (s, ctr)
          | _ => .error .typeErrorToField
        else .ok (freshName ctr, ctr + 1)
      match dstCtr with
      | .error e => .error e
      | .ok (dst, ctr1) =>
        match e1 with
        | .fnos =>
          match e2 with
          | .fopts o => .ok ((dst, NOS, o), ctr1)
          | _ =>
            match fieldAsDefault e2 with
            | some d => .ok ((dst, NOS, defaultOpts d), ctr1)
            | none => .error .notInUniverse
        | .fstr src =>
          match e2 with
          | .fopts o => .ok ((dst, src, o), ctr1)
          | .fcallable f => .ok ((dst, src, converterOpts (.cfun f)), ctr1)
          | .fcall0 g => .ok ((dst, src, converterOpts (.cfun0 g)), ctr1)
          | .fconv c => .ok ((dst, src, converterOpts (.csub c)), ctr1)
          | .fstr name => .ok ((dst, src, converterOpts (.cstr name)), ctr1)
          | .fnos => .ok ((dst, src, converterOpts (.cstr NOS)), ctr1)
          | .fnone => .error .typeErrorBadConverter
          | .fint _ => .error .typeErrorBadConverter
        | _ => .error .typeErrorFromField
    | _ => .error .invalidRuleSpec

/-- Validity of a `default` option value: `isinstance` of `Callable`, `Number`
or `str` (Python bools are `Number`s). -/
def defaultIsValid (d : DefaultSpec) : Bool :=
  match d with
  | .lit (.vint _) => true
  | .lit (.vbool _) => true
  | .lit (.vstr _) => true
  | .lit _ => false
  | .fn0 _ => true
  | .fn1 _ => true

/-- Embedding of `Converter.normalize_copy_attrs`: normalize each raw rule in
order, checking after each expansion that a present `default` is a callable,
number or string (raising the descriptive `TypeError` otherwise). -/
def normalize_copy_attrs (difNos : Option DefaultSpec) (rules : List RawRule)
    (ctr : Nat) : Except Err (List CanonRule × Nat) :=
  match rules with
  | [] => .ok ([], ctr)
  | r :: rest =>
    match normalize_single_copy_attr difNos r ctr with
    | .error e => .error e
    | .ok (t, ctr1) =>
      match t.2.2.default with
      | some d =>
        if defaultIsValid d then
          match normalize_copy_attrs difNos rest ctr1 with
          | .error e => .error e
          | .ok (ts, ctr2) => .ok (t :: ts, ctr2)
        else .error .typeErrorBadDefault
      | none =>
        match normalize_copy_attrs difNos rest ctr1 with
        | .error e => .error e
        | .ok (ts, ctr2) => .ok (t :: ts, ctr2)

/-- Modelled from the specification, section 4.1: the raw-rule expansion
table, rows applied in the spec's priority order.  With `amended := false`
this is the table exactly as written: the 3-element `(dst, NOS, default)` row
is tried before the `(dst, src, opts-mapping)` row, so a 3-tuple with `NOS`
and a mapping third element becomes `{default: mapping}`, which the spec's
post-expansion validation must then reject (folded here into
`Err.typeErrorBadDefault`, since a mapping cannot inhabit `DefaultSpec`); and
a 2-tuple whose second element is neither `NOS`, a string, a callable nor a
mapping falls off the table into the `InvalidRuleSpec` row.  With
`amended := true` the two spots where the code disagrees are changed: the
options-mapping row takes priority over the NOS-default row, and the 2-tuple
fall-off fails with the attribute-access error the code actually raises.
Corner conventions (identical in both variants, matching the code embedding):
non-string destination elements of 1- and 2-tuples are `Err.notInUniverse`;
3-tuple destinations use the code's falsy-to-fresh-name handling; deliberate
descriptive `TypeError`s keep their distinct constructors, all of
`InvalidRuleSpec` kind. -/
def spec_table_normalize_single (amended : Bool) (difNos : Option DefaultSpec)
    (field : RawRule) (ctr : Nat) : Except Err (CanonRule × Nat) :=
  match field with
  | .rstr s => .ok ((s, s, emptyOpts), ctr)
  | .rcallable f =>
    .ok ((freshName ctr, "self", converterOpts (.cfun f)), ctr + 1)
  | .rcall0 g =>
    .ok ((freshName ctr, "self", converterOpts (.cfun0 g)), ctr + 1)
  | .rconv c =>
    .ok ((freshName ctr, "self", converterOpts (.csub c)), ctr + 1)
  | .rseq fs =>
    match fs with
    | [e0] =>
      match e0 with
      | .fstr s => .ok ((s, s, emptyOpts), ctr)
      | _ => .error .notInUniverse
    | [e0, e1] =>
      match e1 with
      | .fnos =>
        match e0 with
        | .fstr s =>
          match difNos with
          | some d => .ok ((s, NOS, defaultOpts d), ctr)
          | none => .ok ((s, NOS, emptyOpts), ctr)
        | _ => .error .notInUniverse
      | .fstr src =>
        match e0 with
        | .fstr s => .ok ((s, src, emptyOpts), ctr)
        | _ => .error .notInUniverse
      | .fcallable f =>
        match e0 with
        | .fstr s => .ok ((s, s, converterOpts (.cfun f)), ctr)
        | _ => .error .notInUniverse
      | .fcall0 g =>
        match e0 with
        | .fstr s => .ok ((s, s, converterOpts (.cfun0 g)), ctr)
        | _ => .error .notInUniverse
      | .fconv c =>
        match e0 with
        | .fstr s => .ok ((s, s, converterOpts (.csub c)), ctr)
        | _ => .error .notInUniverse
      | .fopts o =>
        match e0 with
        | .fstr s => .ok ((s, s, o), ctr)
        | _ => .error .notInUniverse
      | .fnone => if amended then .error .attributeError else .error .invalidRuleSpec
      | .fint _ => if amended then .error .attributeError else .error .invalidRuleSpec
    | [e0, e1, e2] =>
      let dstCtr : Except Err (String × Nat) :=
        if fieldTruthy e0 then
          match e0 with
          | .fstr s => .ok (s, ctr)
          | _ => .error .typeErrorToField
        else .ok (freshName ctr, ctr + 1)
      match dstCtr with
      | .error e => .error e
      | .ok (dst, ctr1) =>
        match e1 with
        | .fnos =>
          if amended then
            match e2 with
            | .fopts o => .ok ((dst, NOS, o), ctr1)
            | _ =>
              match fieldAsDefault e2 with
              | some d => .ok ((dst, NOS, defaultOpts d), ctr1)
              | none => .error .notInUniverse
          else
            match e2 with
            | .fopts _ => .error .typeErrorBadDefault
            | _ =>
              match fieldAsDefault e2 with
              | some d => .ok ((dst, NOS, defaultOpts d), ctr1)
              | none => .error .notInUniverse
        | .fstr src =>
          match e2 with
          | .fopts o => .ok ((dst, src, o), ctr1)
          | .fcallable f => .ok ((dst, src, converterOpts (.cfun f)), ctr1)
          | .fcall0 g => .ok ((dst, src, converterOpts (.cfun0 g)), ctr1)
          | .fconv c => .ok ((dst, src, converterOpts (.csub c)), ctr1)
          | .fstr name => .ok ((dst, src, converterOpts (.cstr name)), ctr1)
          | .fnos => .ok ((dst, src, converterOpts (.cstr NOS)), ctr1)
          | .fnone => .error .typeErrorBadConverter
          | .fint _ => .error .typeErrorBadConverter
        | _ => .error .typeErrorFromField
    | _ => .error .invalidRuleSpec

/-- Modelled from the specification: the whole-list normalization of section
4.1, expansion plus post-expansion default validation per rule, on the same
interleaved schedule as `normalize_copy_attrs`. -/
def spec_table_normalize (amended : Bool) (difNos : Option DefaultSpec)
    (rules : List RawRule) (ctr : Nat) : Except Err (List CanonRule × Nat) :=
  match rules with
  | [] => .ok ([], ctr)
  | r :: rest =>
    match spec_table_normalize_single amended difNos r ctr with
    | .error e => .error e
    | .ok (t, ctr1) =>
      match t.2.2.default with
      | some d =>
        if defaultIsValid d then
          match spec_table_normalize amended difNos rest ctr1 with
          | .error e => .error e
          | .ok (ts, ctr2) => .ok (t :: ts, ctr2)
        else .error .typeErrorBadDefault
      | none =>
        match spec_table_normalize amended difNos rest ctr1 with
        | .error e => .error e
        | .ok (ts, ctr2) => .ok (t :: ts, ctr2)

/-- Turn a canonical triple back into the raw tuple shape in which
`_normalized_dynamic_copy_attrs` re-normalizes the output of
`dynamic_copy_attrs` (the triple is a plain 3-tuple). -/
def canonToRaw (t : CanonRule) : RawRule :=
  .rseq [.fstr t.1, .fstr t.2.1, .fopts t.2.2]

/-- Extra-attribute merge of `dynamic_copy_attrs`: for one keyword override,
stash it in the options of the first rule with matching destination, or append
a fresh `(k, NOS, {_kwarg_override: v})` rule. -/
def setOverrideOrAppend (attrs : List CanonRule) (k : String) (v : Val) :
    List CanonRule :=
  match attrs with
  | [] => [(k, NOS, overrideOpts v)]
  | t :: rest =>
    if t.1 = k then (t.1, t.2.1, t.2.2.withOverride v) :: rest
    else t :: setOverrideOrAppend rest k v

def applyExtraAttrs (attrs : List CanonRule) (extra : List (String × Val)) :
    List CanonRule :=
  extra.foldl (fun acc kv => setOverrideOrAppend acc kv.1 kv.2) attrs

/-- Embedding of `Converter._is_valid_source_type`. -/
def is_valid_source_type (fc : TypeSpec) (v : Val) : Bool :=
  match fc with
  | .union ts => is_one_of_union_types v ts
  | .single t => isinst v t

/-- Truthiness of an optional string option, as in
`bool(opts.get('reverse_attr_name'))` and `if reverse_attr_name:`. -/
def optStrTruthy (o : Option String) : Bool :=
  match o with
  | some s => s ≠ ""
  | none => false

/-- Embedding of `Converter._is_initialization_attr`. -/
def is_initialization_attr (c : ConverterDef) (attr : String) (opts : Opts) :
    Bool :=
  let attr_is_deep := strContainsDot attr
  let attrs_generally_are_for_init := c.options.pass_attrs_to_init
  let attr_has_a_reverse_attribute := optStrTruthy opts.reverse_attr_name
  let attr_converter_wants_instance := opts.pass_instance_to_converter
  let attr_is_merging := opts.merge.getD false
  opts.initialization_attribute.getD
    (attrs_generally_are_for_init
      && !attr_converter_wants_instance
      && !attr_is_deep
      && !attr_has_a_reverse_attribute
      && !attr_is_merging)

/-- Embedding of `Converter._attr_should_be_merged`:
`opts.get('merge', merge_all)`. -/
def attr_should_be_merged (c : ConverterDef) (opts : Opts) : Bool :=
  opts.merge.getD c.options.merge_all

/-- Embedding of `Converter._filter_includes_val`: a one-parameter filter gets
the value, otherwise the value and the whole source. -/
def filter_includes_val (source : Val) (f : FilterSpec) (v : Val) : Bool :=
  match f with
  | .unary p => p v
  | .binary p => p v source

/-- Embedding of `Converter.default_getter`: the reserved path `'self'`
returns the whole source, otherwise `pydash.get(src, attr, default)`. -/
def default_getter (selfSource : Val) (src : Val) (attr : String) :
    Option Val :=
  if attr = "self" then some selfSource else pdGet src attr

/-- The to-side getter as used with the in-progress instance (`none` stands
for the `_SENTRY` placeholder passed during the initialization phase, on which
`pydash.get` finds nothing). -/
def to_getter (selfSource : Val) (inst : Option Val) (attr : String) :
    Option Val :=
  if attr = "self" then some selfSource
  else
    match inst with
    | none => none
    | some i => pdGet i attr

/-- Embedding of `Converter.wash_result`: first washer whose type key matches
the value's type is applied; no match leaves the value unchanged. -/
def wash_result (washers : List (TyTag × (Val → Val))) (v : Val) : Val :=
  match washers with
  | [] => v
  | (t, w) :: rest => if tyTagMatches t v then w v else wash_result rest v

/-- Embedding of `Converter.truncate_value`, `value[:max_len]`: slicing is
defined for strings and lists; anything else raises (`TypeError`). -/
def truncate_value (v : Val) (max_len : Nat) : Except Err Val :=
  match v with
  | .vstr s => .ok (.vstr (strTake s max_len))
  | .vlist xs => .ok (.vlist (xs.take max_len))
  | _ => .error .notSliceable

/-- Key for Python comparison of sort keys: numbers (bools count) compare as
integers. -/
def valNumKey (v : Val) : Option Int :=
  match v with
  | .vint n => some n
  | .vbool b => some (if b then 1 else 0)
  | _ => none

/-- Embedding of `sorted(val, key=sort_key)`: a stable merge sort of the
values by their keys.  All keys must be numbers, or all strings; mixing (or
other key types) raises a comparison `TypeError`, `Err.sortUncomparable`. -/
def sorted_by_key (key : Val → Val) (xs : List Val) : Except Err (List Val) :=
  let pairs := xs.map fun x => (key x, x)
  if pairs.all fun p => (valNumKey p.1).isSome then
    let ipairs := pairs.map fun p => ((valNumKey p.1).getD 0, p.2)
    .ok ((ipairs.mergeSort fun a b => a.1 ≤ b.1).map fun p => p.2)
  else if pairs.all fun p => match p.1 with | .vstr _ => true | _ => false then
    let spairs := pairs.map fun p =>
      ((match p.1 with | .vstr s => s | _ => ""), p.2)
    .ok ((spairs.mergeSort fun a b => a.1 ≤ b.1).map fun p => p.2)
  else .error .sortUncomparable

/-- Evaluation of a validated `default` option at resolution time: invoke if
callable, else use the literal.  A one-argument callable passes validation but
crashes when invoked with no arguments. -/
def evalDefault (d : DefaultSpec) : Except Err Val :=
  match d with
  | .lit v => .ok v
  | .fn0 g => .ok (g ())
  | .fn1 _ => .error .callArity

/-- The converter instance after `__init__`: definition, source, optional
destination and the normalized rules. -/
structure ConvSelf where
  cdef : ConverterDef
  source : Val
  dest : Option Val
  attrs : List CanonRule

/-- Embedding of the pre-default portion of `Converter._get_value` (the
`pass_instance_to_converter` / `NOS` / custom-getter / default-getter chain of
lines 1110-1117 followed by the context fallback of lines 1119-1121).  `none`
is the `_SENTRY` outcome. -/
def resolve_pre_default (self : ConvSelf) (inst : Option Val)
    (from_attr : String) (opts : Opts) (ctx : Ctx) : Option Val :=
  let val :=
    if opts.pass_instance_to_converter then inst
    else if from_attr = NOS then none
    else
      match opts.customGetter with
      | some g => g self.source from_attr
      | none => default_getter self.source self.source from_attr
  match val with
  | none => ctxGet ctx from_attr
  | some v => some v

/-- Embedding of the default-application tail of `Converter._get_value`
(lines 1123-1139): on `_SENTRY`, null or empty-string apply the default if
present (returning it directly, skipping pluralization); with no default,
`_SENTRY` short-circuits and null/empty fall through; finally `pluralize`
wraps non-collections. -/
def get_value_post_default (opts : Opts) (raw : Option Val) :
    Except Err (Option Val) :=
  let plural : Val → Except Err (Option Val) := fun v =>
    .ok (some (if opts.pluralize && !val_is_collection v then pluralize_val v
               else v))
  match raw with
  | none =>
    match opts.default with
    | none => .ok none
    | some d => (evalDefault d).map some
  | some v =>
    if v = .vnone || isEmptyStr v then
      match opts.default with
      | some d => (evalDefault d).map some
      | none => plural v
    else plural v

/-- Embedding of `Converter._get_value`: a non-null stashed keyword override
returns immediately (a null override is invisible to the `is not None` test
and resolution proceeds normally); otherwise resolve through the getter chain
and the context, then apply default and pluralization. -/
def get_value (self : ConvSelf) (inst : Option Val) (from_attr : String)
    (opts : Opts) (ctx : Ctx) : Except Err (Option Val) :=
  match opts.kwarg_override with
  | some ov =>
    if ov = .vnone then
      get_value_post_default opts (resolve_pre_default self inst from_attr opts ctx)
    else .ok (some ov)
  | none =>
    get_value_post_default opts (resolve_pre_default self inst from_attr opts ctx)

/-- Truthiness of the `required` option for the `if value_requirement:` test:
`True` and any callable are truthy. -/
def reqTruthy (r : ReqSpec) : Bool :=
  match r with
  | .rfalse => false
  | .rtrue => true
  | .pred _ => true

/-- Engine state: the call-stack scoped context slot
(`Converter._converter_context_local`) and the global fresh-name counter
(`_COUNTER`). -/
structure ConvSt where
  ctx : Ctx
  counter : Nat
deriving DecidableEq

/-- Computation monad of the engine: explicit state threading with Python
exception semantics (an exception propagates but state changes made before it
survive, which is what the context-restoration theorems are about). -/
def ConvM (α : Type) : Type := ConvSt → Except Err α × ConvSt

def ConvM.pure (a : α) : ConvM α := fun st => (.ok a, st)

def ConvM.bind (x : ConvM α) (f : α → ConvM β) : ConvM β := fun st =>
  match x st with
  | (.ok a, st1) => f a st1
  | (.error e, st1) => (.error e, st1)

instance : Monad ConvM where
  pure := ConvM.pure
  bind := ConvM.bind

/-- Raise a Python exception. -/
def throwE (e : Err) : ConvM α := fun st => (.error e, st)

/-- Read the current context slot. -/
def getCtxM : ConvM Ctx := fun st => (.ok st.ctx, st)

/-- Lift a pure `Except` computation. -/
def liftE (x : Except Err α) : ConvM α := fun st => (x, st)

/-- Run a counter-threaded pure computation against the global counter. -/
def liftCounter (f : Nat → Except Err (α × Nat)) : ConvM α := fun st =>
  match f st.counter with
  | .error e => (.error e, st)
  | .ok (a, c1) => (.ok a, { st with counter := c1 })

/-- Embedding of `Converter.instantiate`: `copy_only` forbids construction;
otherwise `self.to_class(**attrs)`.  In the universe only a plain `dict`
destination class is constructible from keyword arguments. -/
def instantiate (c : ConverterDef) (params : List (String × Val × Opts)) :
    Except Err Val :=
  if c.options.copy_only then .error .copyOnlyInstantiate
  else
    match c.to_class with
    | some (.single .cdict) => .ok (.vdict (params.map fun p => (p.1, p.2.1)))
    | _ => .error .cannotInstantiate

/-- Write an updated sub-object back through the alias by which `_set_value`
fetched it (Python mutates the fetched sub-object in place; functionally that
is an update of the container slot it was read from). -/
def writeBack (inst : Val) (k : String) (sv : Val) : Val :=
  match inst with
  | .vdict fs => .vdict (dictUpsert fs k sv)
  | .vlist xs =>
    match strToNatQ k with
    | some i => .vlist (xs.set i sv)
    | none => inst
  | _ => inst

/-- Embedding of the non-deep tail of `Converter._set_value` for the universe
(no custom setter configured): a dict instance gets `inst[to_attr] = val`; a
non-iterable instance goes through `default_setter`, whose `setattr` fails on
every universe value; a list instance is iterated, applying the setter to each
member, so an empty list is a silent no-op and a non-empty one fails on its
first member. -/
def set_leaf (inst : Val) (to_attr : String) (v : Val) : Except Err Val :=
  match inst with
  | .vdict fs => .ok (.vdict (dictUpsert fs to_attr v))
  | .vlist [] => .ok (.vlist [])
  | _ => .error .setterFailed

/-- Embedding of `Converter._set_value` over pre-split path segments: a deep
path fetches the next component via the to-getter (`None` silently aborts the
assignment), recurses, and the mutation lands through the alias; the reserved
component `'self'` makes the getter return the whole source, so the mutation
lands on the source and the instance is unchanged. -/
def set_value_segs (selfSource : Val) (inst : Val) (segs : List String)
    (v : Val) : Except Err Val :=
  match segs with
  | [] => .ok inst
  | [last] => set_leaf inst last v
  | left :: rest =>
    let subval :=
      if left = "self" then some selfSource else pdGet inst left
    match subval with
    | none => .ok inst
    | some .vnone => .ok inst
    | some sv =>
      match set_value_segs selfSource sv rest v with
      | .error e => .error e
      | .ok sv2 =>
        if left = "self" then .ok inst else .ok (writeBack inst left sv2)

/-- Embedding of `Converter._set_value`: `to_attr.partition('.')` applied
repeatedly equals splitting the destination path on dots. -/
def set_value (selfSource : Val) (inst : Val) (to_attr : String) (v : Val) :
    Except Err Val :=
  set_value_segs selfSource inst (strSplitDots to_attr) v

/-- Embedding of `Converter.populate_instance`: set each resolved value on the
instance in order, except that a rule whose options carry `merge: true`
(`opts.get('merge', False)`) is skipped deliberately. -/
def populate_instance (selfSource : Val) (inst : Val)
    (params : List (String × Val × Opts)) : Except Err Val :=
  match params with
  | [] => .ok inst
  | (to_attr, v, opts) :: rest =>
    if opts.merge.getD false then populate_instance selfSource inst rest
    else
      match set_value selfSource inst to_attr v with
      | .error e => .error e
      | .ok inst2 => populate_instance selfSource inst2 rest

/-- Ordered-dict insertion for the resolved-params mapping: a repeated
destination overwrites in place, a new one appends. -/
def paramsUpsert (acc : List (String × Val × Opts)) (k : String)
    (v : Val × Opts) : List (String × Val × Opts) :=
  match acc with
  | [] => [(k, v.1, v.2)]
  | (k1, v1) :: rest =>
    if k1 = k then (k1, v.1, v.2) :: rest else (k1, v1) :: paramsUpsert rest k v

/-- The validation prologue of `Converter.__init__` (lines 642-653):
`from_class`/`to_class` presence, the union-destination prohibition, then the
source type check, which is skipped for a null source. -/
def init_type_checks (c : ConverterDef) (source : Val) : Except Err Unit :=
  match c.from_class with
  | none => .error .noFromClass
  | some fc =>
    match c.to_class with
    | none => .error .noToClass
    | some tc =>
      if is_union_type tc then .error .invalidToClass
      else if source ≠ .vnone && !is_valid_source_type fc source then
        .error .sourceTypeMismatch
      else .ok ()

/-- Embedding of `Converter.__init__`: the validation prologue, then
`_normalized_dynamic_copy_attrs`: normalize the class rules, merge the
keyword extra attributes, and re-normalize the resulting triples (both passes
consume the global fresh-name counter). -/
def converter_init (c : ConverterDef) (source : Val) (dest : Option Val)
    (extra : List (String × Val)) : ConvM ConvSelf :=
  match init_type_checks c source with
  | .error e => throwE e
  | .ok () => do
    let a1 ← liftCounter (normalize_copy_attrs c.default_if_nos c.conversions)
    let a2 := applyExtraAttrs a1 extra
    let a3 ← liftCounter
      (normalize_copy_attrs c.default_if_nos (a2.map canonToRaw))
    pure (ConvSelf.mk c source dest a3)

/-- The washers / truncation / sort tail of `_normalize_value` (lines
1084-1103 of the source), as one pure stage. -/
def wash_truncate_sort_stage (c : ConverterDef) (opts : Opts) (v : Val) :
    Except Err Val :=
  let v5 := if !opts.skip_wash then wash_result c.washers v else v
  match (match opts.max_len with
         | some n => truncate_value v5 n
         | none => .ok v5) with
  | .error e => .error e
  | .ok v6 =>
    match opts.sort with
    | .noSort => .ok v6
    | s =>
      if !val_is_collection v6 then .error .sortNotCollection
      else
        let key := match s with | .key f => f | _ => fun x => x
        match v6 with
        | .vlist xs =>
          match sorted_by_key key xs with
          | .error e => .error e
          | .ok ys => .ok (.vlist ys)
        | _ => .error .sortNotCollection

/-- The global-options stage of `_normalize_value` (lines 1072-1078): drop a
null when `include_nones` is off (this wins over `convert_nones_to_blanks`),
blank a surviving null when `convert_nones_to_blanks` is on, then drop an
empty string when `include_empty_strings` is off.  `none` is the Omit
outcome. -/
def globals_stage (c : ConverterDef) (v3 : Val) : Option Val :=
  if !c.options.include_nones && v3 = .vnone then none
  else
    let v4 :=
      if v3 = .vnone && c.options.convert_nones_to_blanks then Val.vstr ""
      else v3
    if !c.options.include_empty_strings && isEmptyStr v4 then none else some v4

/-- The post-`_convert_child` tail of `Converter._normalize_value`,
transliterated in the code's order (lines 1072-1103): the `include_nones`
check, the `convert_nones_to_blanks` substitution and the
`include_empty_strings` check come first, then the `val is _SENTRY` early
return, then washers, `max_len` truncation and `sort`.  The value is carried
as `Option Val` because a `_SENTRY` from `_convert_child` flows through the
none/empty tests unchanged (it is neither null nor equal to the empty
string). -/
def normalize_value_post (c : ConverterDef) (opts : Opts) (v2 : Option Val) :
    Except Err (Option Val) :=
  if !c.options.include_nones && v2 = some .vnone then .ok none
  else
    let v2b :=
      if v2 = some .vnone && c.options.convert_nones_to_blanks then
        some (Val.vstr "")
      else v2
    if !c.options.include_empty_strings
        && (match v2b with | some v => isEmptyStr v | none => false) then
      .ok none
    else
      match v2b with
      | none => .ok none
      | some v4 => (wash_truncate_sort_stage c opts v4).map some

/-- Modelled from the specification as amended: the same pipeline expressed
as the global-options stage first, followed by the washers / truncation /
sort stage. -/
def amended_spec_normalize_value_post (c : ConverterDef) (opts : Opts)
    (v2 : Option Val) : Except Err (Option Val) :=
  match v2 with
  | none => .ok none
  | some v3 =>
    match globals_stage c v3 with
    | none => .ok none
    | some v4 => (wash_truncate_sort_stage c opts v4).map some

/-- Modelled from the specification, section 4.3 steps 8-11: the same two
stages with the spec's ordering, washers / truncation / sort first and the
global none/empty options applied after them to the final value. -/
def spec_normalize_value_post (c : ConverterDef) (opts : Opts)
    (v2 : Option Val) : Except Err (Option Val) :=
  match v2 with
  | none => .ok none
  | some v3 =>
    match wash_truncate_sort_stage c opts v3 with
    | .error e => .error e
    | .ok v7 => .ok (globals_stage c v7)

/-- Predicate-form `required` check of `_normalize_value` (a callable
requirement is invoked on the resolved, post-default value). -/
def required_pred_check (r : ReqSpec) (from_attr : String) (v : Val) :
    ConvM Unit :=
  match r with
  | .pred p =>
    if !(p v) then throwE (.valueRequired from_attr true) else pure ()
  | _ => pure ()

mutual

/-- Embedding of `Converter.convert` called in class form:
`cls(source, context=..., dest=..., **extra).convert()`, that is `__init__`
followed by `_updated_context` around `instance_convert`.  The context slot is
saved before the merged context `{**old, **built, **caller}` is installed and
restored afterwards whether the body returns or raises (the `finally` of the
context manager). -/
def converter_convert (fuel : Nat) (c : ConverterDef) (source : Val)
    (callerCtx : Option Ctx) (dest : Option Val)
    (extra : List (String × Val)) : ConvM (Option Val) :=
  match fuel with
  | 0 => throwE .outOfFuel
  | fuel + 1 => fun st =>
    match converter_init c source dest extra st with
    | (.error e, st1) => (.error e, st1)
    | (.ok self, st1) =>
      let built := match c.buildContext with | none => [] | some f => f source
      let newCtx := callerCtx.getD []
      let old := st1.ctx
      let installed := mergeCtx (mergeCtx old built) newCtx
      match instance_convert fuel self { st1 with ctx := installed } with
      | (r, st2) => (r, { st2 with ctx := old })
termination_by structural fuel

/-- Embedding of `Converter.instance_convert`: resolve initialization
attributes, populate the caller-supplied destination or instantiate a fresh
one (a null or `_SENTRY` construction short-circuits), then resolve and apply
population attributes and run `post_convert`. -/
def instance_convert (fuel : Nat) (self : ConvSelf) : ConvM (Option Val) :=
  match fuel with
  | 0 => throwE .outOfFuel
  | fuel + 1 => do
    let initAttrs ← params_loop fuel self true none self.attrs []
    match self.dest with
    | some d => do
      let inst ← liftE (populate_instance self.source d initAttrs)
      populate_phase fuel self inst
    | none => do
      let inst ← liftE (instantiate self.cdef initAttrs)
      if inst = .vnone then pure (some .vnone)
      else populate_phase fuel self inst
termination_by structural fuel

/-- The population half of `instance_convert`: `params_for_population`,
`populate_instance` and the optional `post_convert` hook. -/
def populate_phase (fuel : Nat) (self : ConvSelf) (inst : Val) :
    ConvM (Option Val) :=
  match fuel with
  | 0 => throwE .outOfFuel
  | fuel + 1 => do
    let popAttrs ← params_loop fuel self false (some inst) self.attrs []
    let inst2 ← liftE (populate_instance self.source inst popAttrs)
    match self.cdef.postConvert with
    | none => pure (some inst2)
    | some p => pure (some (p inst2))
termination_by structural fuel

/-- Embedding of `params_for_initialization` / `params_for_population` (the
phase is selected by `initPhase`): walk the normalized rules, keep the ones of
the requested phase, resolve each with `_normalize_value` and collect non-Omit
results into the ordered mapping. -/
def params_loop (fuel : Nat) (self : ConvSelf) (initPhase : Bool)
    (inst : Option Val) (attrs : List CanonRule)
    (acc : List (String × Val × Opts)) : ConvM (List (String × Val × Opts)) :=
  match fuel with
  | 0 => throwE .outOfFuel
  | fuel + 1 =>
    match attrs with
    | [] => pure acc
    | (to_attr, from_attr, opts) :: rest =>
      if is_initialization_attr self.cdef to_attr opts != initPhase then
        params_loop fuel self initPhase inst rest acc
      else do
        let v ← normalize_value fuel self to_attr from_attr opts inst
        match v with
        | none => params_loop fuel self initPhase inst rest acc
        | some v1 =>
          params_loop fuel self initPhase inst rest
            (paramsUpsert acc to_attr (v1, opts))
termination_by structural fuel

/-- Embedding of `Converter._normalize_value`: `_get_value` (defaults already
applied inside it), the required checks, `_convert_child`, then the pure
post-processing tail `normalize_value_post`. -/
def normalize_value (fuel : Nat) (self : ConvSelf) (to_attr : String)
    (from_attr : String) (opts : Opts) (inst : Option Val) :
    ConvM (Option Val) :=
  match fuel with
  | 0 => throwE .outOfFuel
  | fuel + 1 => do
    let ctx ← getCtxM
    let val ← liftE (get_value self inst from_attr opts ctx)
    match val with
    | none =>
      if reqTruthy opts.required then throwE (.valueRequired from_attr false)
      else pure none
    | some v => do
      required_pred_check opts.required from_attr v
      let v2 ← convert_child fuel self to_attr opts v inst
      liftE (normalize_value_post self.cdef opts v2)
termination_by structural fuel

/-- Embedding of `Converter._convert_child`: mapping decision, single-value
filtering, pass-through and reverse wiring when no converter is configured,
null short-circuit, converter dispatch, merge sub-destination lookup, and the
mapped or direct application. -/
def convert_child (fuel : Nat) (self : ConvSelf) (to_attr : String)
    (opts : Opts) (val : Val) (inst : Option Val) : ConvM (Option Val) :=
  match fuel with
  | 0 => throwE .outOfFuel
  | fuel + 1 =>
    let filt := opts.filter
    let revName := opts.reverse_attr_name
    let should_map := opts.map && val_is_collection val
    let filteredOut :=
      !should_map &&
        (match filt with
         | some f => !filter_includes_val self.source f val
         | none => false)
    if filteredOut then pure none
    else
      match opts.converter, filt with
      | none, none =>
        match inst with
        | some i =>
          if optStrTruthy revName then do
            let val2 ← liftE (set_value self.source val (revName.getD "") i)
            pure (some val2)
          else pure (some val)
        | none => pure (some val)
      | scOpt, _ =>
        let sc := scOpt.getD (.cfun fun x => x)
        if val = .vnone && !opts.converter_wants_nones then pure (some .vnone)
        else
          match sc with
          | .cstr _ => throwE .namedConverterOutOfScope
          | _ => do
            let wants_dest := match sc with | .csub _ => true | _ => false
            let kwargs ← (show ConvM (List (String × Val)) from
              if optStrTruthy revName then
                match inst with
                | none => throwE .reverseAttrOnInitProperty
                | some i => pure [(revName.getD "", i)]
              else pure [])
            let sub_dest :=
              if attr_should_be_merged self.cdef opts then
                to_getter self.source inst to_attr
              else none
            if should_map then
              match val with
              | .vlist xs => do
                let dests ← (show ConvM (Option (List Val)) from
                  if wants_dest then
                    match sub_dest with
                    | some (.vlist ds) => pure (some ds)
                    | some _ => throwE .notInUniverse
                    | none => pure none
                  else pure none)
                let ys ← map_loop fuel self sc filt kwargs xs dests []
                pure (some (.vlist ys))
              | _ => pure (some val)
            else
              let destArg := if wants_dest then sub_dest else none
              cfunc_call fuel self sc val destArg kwargs
termination_by structural fuel

/-- Embedding of the mapping comprehension of `_convert_child`: the collection
is zipped against the merge sub-destination when one is used (`zip`
truncates), elements rejected by the filter are dropped (but still consume
their zip partner), the converter is applied to the survivors and `_SENTRY`
results are dropped. -/
def map_loop (fuel : Nat) (self : ConvSelf) (sc : ConvSpec)
    (filt : Option FilterSpec) (kwargs : List (String × Val)) (xs : List Val)
    (dests : Option (List Val)) (acc : List Val) : ConvM (List Val) :=
  match fuel with
  | 0 => throwE .outOfFuel
  | fuel + 1 =>
    match xs with
    | [] => pure acc.reverse
    | x :: rest =>
      match dests with
      | some [] => pure acc.reverse
      | _ =>
        let destArg : Option Val :=
          match dests with | some (d :: _) => some d | _ => none
        let dests1 : Option (List Val) :=
          match dests with | some (_ :: ds) => some ds | _ => none
        let keep :=
          match filt with
          | some f => filter_includes_val self.source f x
          | none => true
        if !keep then map_loop fuel self sc filt kwargs rest dests1 acc
        else do
          let r ← cfunc_call fuel self sc x destArg kwargs
          match r with
          | none => map_loop fuel self sc filt kwargs rest dests1 acc
          | some v => map_loop fuel self sc filt kwargs rest dests1 (v :: acc)
termination_by structural fuel

/-- Embedding of one `cfunc` application: a nested converter runs a full
conversion of the element (caller context not passed, the optional merge
destination as `dest`, reverse-wiring kwargs as extra attributes); a unary
function is applied directly (it cannot accept reverse-wiring kwargs); a
zero-argument callable crashes when handed the value. -/
def cfunc_call (fuel : Nat) (_self : ConvSelf) (sc : ConvSpec) (v : Val)
    (destArg : Option Val) (kwargs : List (String × Val)) :
    ConvM (Option Val) :=
  match fuel with
  | 0 => throwE .outOfFuel
  | fuel + 1 =>
    match sc with
    | .cfun f => if kwargs ≠ [] then throwE .callArity else pure (some (f v))
    | .cfun0 _ => throwE .callArity
    | .cstr _ => throwE .namedConverterOutOfScope
    | .csub c => converter_convert fuel c v none destArg kwargs
termination_by structural fuel

end

/-- Remove a stashed keyword override (for stating that a null override
behaves as no override at all). -/
def Opts.withoutOverride (o : Opts) : Opts :=
  match o with
  | .mk c w d f m ml mg p r rq s _ g sw i pi =>
    .mk c w d f m ml mg p r rq s none g sw i pi

/-- A dict-to-dict converter definition (the `DictConverter` convenience
class) with given rules and options. -/
def dictConv (rules : List RawRule) (o : ConvOptions) : ConverterDef :=
  .mk (some (.single .cdict)) (some (.single .cdict)) rules o [] none none none

/-- Options dict of `{'required': True, 'default': 'fallback'}`. -/
def requiredWithDefaultOpts : Opts :=
  .mk none false (some (.lit (.vstr "fallback"))) none true none none false
    none .rtrue .noSort none none false none false

/-- Options dict of `{'required': <null-check predicate>, 'default':
'fallback'}`. -/
def requiredPredWithDefaultOpts : Opts :=
  .mk none false (some (.lit (.vstr "fallback"))) none true none none false
    none (.pred fun v => decide (v = Val.vnone)) .noSort none none false none
    false

/-- The converter of the required-before-default scenario:
`rules=[('x', 'y', {'required': True, 'default': 'fallback'})]`. -/
def c1Conv : ConverterDef :=
  dictConv [.rseq [.fstr "x", .fstr "y", .fopts requiredWithDefaultOpts]] {}

/-- The predicate variant: `rules=[('x', 'y', {'required': lambda v: v is
None, 'default': 'fallback'})]`. -/
def c1PredConv : ConverterDef :=
  dictConv [.rseq [.fstr "x", .fstr "y", .fopts requiredPredWithDefaultOpts]]
    {}

/-- The converter `rules=[('x', NOS, 'fallback')]`. -/
def c3aConv : ConverterDef :=
  dictConv [.rseq [.fstr "x", .fnos, .fstr "fallback"]] {}

/-- The converter `rules=[('x', 'y', {'default': 'fallback'})]`. -/
def c3bConv : ConverterDef :=
  dictConv [.rseq [.fstr "x", .fstr "y",
                   .fopts (defaultOpts (.lit (.vstr "fallback")))]] {}

/-- A converter instance state over an empty dict converter, for witness
instantiations. -/
def exSelf : ConvSelf := ⟨dictConv [] {}, .vdict [], none, []⟩

/-- Nested-conversion child for the context-precedence scenario: a rule
reading `k` and a `build_context` computing `{'k': 'built'}`. -/
def c4Child : ConverterDef :=
  .mk (some (.single .cdict)) (some (.single .cdict)) [.rstr "k"] {} []
    (some fun _ => [("k", .vstr "built")]) none none

/-- Parent converter handing its sub-source to `c4Child`. -/
def c4Parent : ConverterDef :=
  dictConv [.rseq [.fstr "sub", .fconv c4Child]] {}

/-- Converter with a washer mapping every number to null and
`include_nones: False`, for the option-ordering scenario. -/
def c6Conv : ConverterDef :=
  .mk (some (.single .cdict)) (some (.single .cdict)) [.rstr "a"]
    { include_nones := false } [(.tnumber, fun _ => .vnone)] none none none

/-- Converter with `merge_all: True` and one plain copy rule. -/
def c7Conv : ConverterDef := dictConv [.rstr "a"] { merge_all := true }

/-- Converter whose acceptable source type is `Union[dict, list]`. -/
def c8UnionConv : ConverterDef :=
  .mk (some (.union [.cdict, .clist])) (some (.single .cdict)) [.rstr "a"] {}
    [] none none none

/-- Converter whose destination type is declared as `Union[dict, object]`. -/
def c8UnionToConv : ConverterDef :=
  .mk (some (.single .cdict)) (some (.union [.cdict, .cobject])) [.rstr "a"]
    {} [] none none none

/-- CLAIM C1.  The claim states that with `options.required` true and a
default configured, a source missing the attribute raises `ValueRequired`
before the default is substituted, and that a predicate requirement is
evaluated on the raw pre-default value.  The code applies the default inside
`_get_value` before `_normalize_value` performs either requiredness check, so
`rules=[('x', 'y', {'required': True, 'default': 'fallback'})]` with
`source={}` silently produces `{'x': 'fallback'}` and raises nothing, and a
predicate requirement is evaluated on the already-defaulted value: with
`required = (lambda v: v is None)` and `source={'y': None}` the predicate
receives `'fallback'` rather than the raw `None` and conversion raises
`ValueRequired` although the raw value satisfies the predicate.  This theorem
evaluates the embedded code on both failing inputs. -/
theorem c1_required_before_default_code_behaviour :
    converter_convert 100 c1Conv (.vdict []) none none [] ⟨[], 1⟩
      = (.ok (some (.vdict [("x", .vstr "fallback")])), ⟨[], 1⟩)
    ∧ converter_convert 100 c1PredConv (.vdict [("y", .vnone)]) none none []
        ⟨[], 1⟩
      = (.error (.valueRequired "y" true), ⟨[], 1⟩) := by
  constructor
  · rfl
  · rfl

/-- CLAIM C10.  A caller-supplied keyword override whose value is null is
invisible to the `opts.get('_kwarg_override') is not None` test, so the value
is resolved through the normal getter/context/default path exactly as if no
override had been stashed; every non-null override is returned immediately. -/
theorem c10_null_override_ignored (self : ConvSelf) (inst : Option Val)
    (fa : String) (opts : Opts) (ctx : Ctx) :
    (opts.kwarg_override = some .vnone →
      get_value self inst fa opts ctx
        = get_value self inst fa opts.withoutOverride ctx)
    ∧ (∀ v : Val, opts.kwarg_override = some v → v ≠ .vnone →
      get_value self inst fa opts ctx = .ok (some v)) := by
  obtain ⟨c, w, d, f, m, ml, mg, p, r, rq, s, k, g, sw, i, pi⟩ := opts
  constructor
  · intro hk
    simp only [Opts.kwarg_override] at hk
    subst hk
    rfl
  · intro v hk hv
    simp only [Opts.kwarg_override] at hk
    subst hk
    simp only [get_value, Opts.kwarg_override]
    rw [if_neg hv]

theorem c10_null_override_ignored_witness :
    (get_value exSelf none "y" (overrideOpts .vnone) []
      = get_value exSelf none "y" (overrideOpts .vnone).withoutOverride [])
    ∧ get_value exSelf none "y" (overrideOpts (.vstr "v")) []
      = .ok (some (.vstr "v")) :=
  ⟨(c10_null_override_ignored exSelf none "y" (overrideOpts .vnone) []).1 rfl,
   (c10_null_override_ignored exSelf none "y" (overrideOpts (.vstr "v")) []).2
     (.vstr "v") rfl (by decide)⟩

/-- CLAIM C3.  For every rule with a configured default and no effective
keyword override, whenever the pre-default resolution through the getter
chain and the context yields Omit, null, or the empty string, `_get_value`
returns the default (invoked if callable, else the literal), and in
particular `rules=[('x', NOS, 'fallback')]` with `source={}` and
`rules=[('x', 'y', {'default': 'fallback'})]` with `source={'y': None}` both
produce `destination['x'] == 'fallback'`. -/
theorem c3_default_on_missing_null_empty :
    (∀ (self : ConvSelf) (inst : Option Val) (fa : String) (opts : Opts)
       (ctx : Ctx) (d : DefaultSpec),
      (opts.kwarg_override = none ∨ opts.kwarg_override = some .vnone) →
      opts.default = some d →
      (resolve_pre_default self inst fa opts ctx = none ∨
        resolve_pre_default self inst fa opts ctx = some .vnone ∨
        resolve_pre_default self inst fa opts ctx = some (.vstr "")) →
      get_value self inst fa opts ctx = (evalDefault d).map some)
    ∧ converter_convert 100 c3aConv (.vdict []) none none [] ⟨[], 1⟩
      = (.ok (some (.vdict [("x", .vstr "fallback")])), ⟨[], 1⟩)
    ∧ converter_convert 100 c3bConv (.vdict [("y", .vnone)]) none none []
        ⟨[], 1⟩
      = (.ok (some (.vdict [("x", .vstr "fallback")])), ⟨[], 1⟩) := by
  refine ⟨?_, by rfl, by rfl⟩
  intro self inst fa opts ctx d hov hd hraw
  have hbody :
      get_value_post_default opts (resolve_pre_default self inst fa opts ctx)
        = (evalDefault d).map some := by
    rcases hraw with h | h | h <;>
      simp [get_value_post_default, h, hd, isEmptyStr]
  rcases hov with h | h <;> simp [get_value, h, hbody]

theorem c3_default_on_missing_null_empty_witness :
    get_value exSelf none "y" (defaultOpts (.lit (.vstr "fallback"))) []
      = (evalDefault (.lit (.vstr "fallback"))).map some :=
  c3_default_on_missing_null_empty.1 exSelf none "y"
    (defaultOpts (.lit (.vstr "fallback"))) [] (.lit (.vstr "fallback"))
    (Or.inl rfl) rfl (Or.inl rfl)

/-- Initialization touches only the fresh-name counter, never the context
slot, whether it succeeds or raises. -/
theorem converter_init_ctx (c : ConverterDef) (source : Val)
    (dest : Option Val) (extra : List (String × Val)) (st : ConvSt) :
    ((converter_init c source dest extra st).2).ctx = st.ctx := by
  unfold converter_init
  cases hc : init_type_checks c source with
  | error e => rfl
  | ok u =>
    cases u
    simp only [Bind.bind, ConvM.bind, Pure.pure, ConvM.pure, liftCounter]
    cases h1 : normalize_copy_attrs c.default_if_nos c.conversions st.counter with
    | error e => simp
    | ok p =>
      obtain ⟨a1, c1⟩ := p
      simp only
      cases h2 : normalize_copy_attrs c.default_if_nos
          ((applyExtraAttrs a1 extra).map canonToRaw) c1 with
      | error e => simp
      | ok p2 =>
        obtain ⟨a3, c2⟩ := p2
        simp

/-- CLAIM C5.  For every conversion, nested or top-level, and every starting
state, the context slot observed after `convert` returns equals the slot
observed before it was entered, both when the conversion completes normally
and when it raises: the `finally` of `_updated_context` writes the saved
previous context back on every exit path, so the merged
`{previous, built, caller-supplied}` context is visible only for the dynamic
extent of the conversion. -/
theorem c5_context_restored (fuel : Nat) (c : ConverterDef) (source : Val)
    (cctx : Option Ctx) (dest : Option Val) (extra : List (String × Val))
    (st : ConvSt) :
    ((converter_convert fuel c source cctx dest extra st).2).ctx = st.ctx := by
  cases fuel with
  | zero => rfl
  | succ f =>
    have hctx := converter_init_ctx c source dest extra st
    unfold converter_convert
    rcases hI : converter_init c source dest extra st with ⟨r, st1⟩
    rw [hI] at hctx
    cases r with
    | error e => simpa using hctx
    | ok self =>
      rcases hJ : instance_convert f self
          { st1 with
            ctx := mergeCtx
              (mergeCtx st1.ctx
                (match c.buildContext with | none => [] | some fb => fb source))
              (cctx.getD []) } with ⟨r2, st2⟩
      simp only [hJ]
      simpa using hctx

/-- CLAIM C7, counterexample.  The claim states that every rule of a
converter with converter-level `merge_all` set is skipped by the population
step, its destination attribute never being directly set.  With
`merge_all: True`, one plain rule `'a'`, `source={'a': 1}` and an existing
destination `{'a': 99}`, merge semantics are active for the rule (first
conjunct), yet population does set the attribute and the destination becomes
`{'a': 1}`: `populate_instance` consults only the per-rule
`opts.get('merge', False)`, not `merge_all`. -/
theorem c7_merge_all_not_skipped_counterexample :
    attr_should_be_merged c7Conv emptyOpts = true
    ∧ converter_convert 100 c7Conv (.vdict [("a", .vint 1)]) none
        (some (.vdict [("a", .vint 99)])) [] ⟨[], 1⟩
      = (.ok (some (.vdict [("a", .vint 1)])), ⟨[], 1⟩) :=
  ⟨rfl, rfl⟩

/-- CLAIM C7, as amended.  During population exactly the rules whose own
options carry `merge: true` are skipped — populating with any parameter list
is the same as populating with its merge-flagged entries removed, so the
setter is never invoked for them and they cannot overwrite the destination
attribute; converter-level `merge_all` does not cause this skip (it only
activates the merge sub-destination lookup inside `_convert_child`). -/
theorem c7_merge_rules_skipped_in_population (selfSource : Val) (inst : Val)
    (params : List (String × Val × Opts)) :
    populate_instance selfSource inst params
      = populate_instance selfSource inst
          (params.filter fun p => !(p.2.2.merge.getD false)) := by
  induction params generalizing inst with
  | nil => rfl
  | cons hd rest ih =>
    obtain ⟨to_attr, v, opts⟩ := hd
    by_cases hm : opts.merge.getD false = true
    · simp only [populate_instance, hm, if_true, List.filter_cons,
        Bool.not_true, Bool.false_eq_true, if_false]
      exact ih inst
    · have hm' : opts.merge.getD false = false := by simpa using hm
      simp only [populate_instance, hm', List.filter_cons, Bool.not_false,
        if_true, Bool.false_eq_true, if_false]
      cases hset : set_value selfSource inst to_attr v with
      | error e => rfl
      | ok inst2 => exact ih inst2

/-- CLAIM C8, counterexample.  The claim states that constructing a converter
whose acceptable source type is a union with a source that is an instance of
none of the alternatives fails with a type-mismatch error.  A null source is
an instance of neither `dict` nor `list` (first conjunct), yet construction
and conversion succeed, because `__init__` guards the check with
`source is not None`. -/
theorem c8_union_null_source_counterexample :
    is_one_of_union_types .vnone [.cdict, .clist] = false
    ∧ converter_convert 100 c8UnionConv .vnone none none [] ⟨[], 1⟩
      = (.ok (some (.vdict [])), ⟨[], 1⟩) :=
  ⟨rfl, rfl⟩

/-- CLAIM C8, as amended.  For a converter whose acceptable source type is a
union: a non-null source that is an instance of some alternative passes the
construction-time type checks, a non-null source that is an instance of no
alternative fails them with exactly the type-mismatch error (a null source
bypasses the check), and declaring the destination type as a union fails the
checks with `InvalidToClassException` regardless of the source; whenever the
type checks fail, `__init__` raises that error immediately, before any rule
normalization, with the engine state untouched. -/
theorem c8_union_source_and_destination (c : ConverterDef)
    (ts : List ClassTy) (t : ClassTy) (source : Val) :
    (c.from_class = some (.union ts) → c.to_class = some (.single t) →
      source ≠ .vnone →
      ((init_type_checks c source = .error .sourceTypeMismatch ↔
          is_one_of_union_types source ts = false)
        ∧ (is_one_of_union_types source ts = true →
            init_type_checks c source = .ok ())))
    ∧ (∀ fc ts1, c.from_class = some fc → c.to_class = some (.union ts1) →
        init_type_checks c source = .error .invalidToClass)
    ∧ (∀ (dest : Option Val) (extra : List (String × Val)) (st : ConvSt)
         (e : Err), init_type_checks c source = .error e →
        converter_init c source dest extra st = (.error e, st)) := by
  refine ⟨?_, ?_, ?_⟩
  · intro hfc htc hsource
    cases hone : is_one_of_union_types source ts with
    | true =>
      constructor
      · simp [init_type_checks, hfc, htc, is_union_type,
          is_valid_source_type, hone]
      · intro _
        simp [init_type_checks, hfc, htc, is_union_type,
          is_valid_source_type, hone]
    | false =>
      constructor
      · simp [init_type_checks, hfc, htc, is_union_type,
          is_valid_source_type, hone, hsource]
      · intro hcontra
        simp [hone] at hcontra
  · intro fc ts1 hfc htc
    simp [init_type_checks, hfc, htc, is_union_type]
  · intro dest extra st e he
    unfold converter_init
    rw [he]
    rfl

theorem c8_union_source_and_destination_witness :
    ((init_type_checks c8UnionConv (.vstr "s") = .error .sourceTypeMismatch ↔
        is_one_of_union_types (.vstr "s") [.cdict, .clist] = false)
      ∧ (is_one_of_union_types (.vstr "s") [.cdict, .clist] = true →
          init_type_checks c8UnionConv (.vstr "s") = .ok ()))
    ∧ init_type_checks c8UnionToConv (.vdict []) = .error .invalidToClass
    ∧ converter_init c8UnionToConv (.vdict []) none [] ⟨[], 1⟩
      = (.error .invalidToClass, ⟨[], 1⟩) := by
  refine ⟨?_, ?_, ?_⟩
  · exact (c8_union_source_and_destination c8UnionConv [.cdict, .clist]
      .cdict (.vstr "s")).1 rfl rfl (by decide)
  · exact (c8_union_source_and_destination c8UnionToConv [.cdict, .clist]
      .cdict (.vdict [])).2.1 (.single .cdict) [.cdict, .cobject] rfl rfl
  · exact (c8_union_source_and_destination c8UnionToConv [.cdict, .clist]
      .cdict (.vdict [])).2.2 none [] ⟨[], 1⟩ .invalidToClass
      ((c8_union_source_and_destination c8UnionToConv [.cdict, .clist]
        .cdict (.vdict [])).2.1 (.single .cdict) [.cdict, .cobject] rfl rfl)

/-- CLAIM C6, counterexample.  The claim states that `include_nones`,
`include_empty_strings` and `convert_nones_to_blanks` are applied after
washers, `max_len` truncation and sort, per final value, so that a null final
value with `include_nones=false` becomes Omit.  With a washer mapping every
number to null and `include_nones: False`, the code applies the none-check
before washing: the resolved `5` passes the check, is then washed to null,
and the attribute is kept with value null (conjuncts one and three), whereas
the spec's ordering would wash first and drop the attribute (conjunct
two). -/
theorem c6_options_order_counterexample :
    normalize_value_post c6Conv emptyOpts (some (.vint 5))
      = .ok (some .vnone)
    ∧ spec_normalize_value_post c6Conv emptyOpts (some (.vint 5)) = .ok none
    ∧ converter_convert 100 c6Conv (.vdict [("a", .vint 5)]) none none []
        ⟨[], 1⟩
      = (.ok (some (.vdict [("a", .vnone)])), ⟨[], 1⟩) :=
  ⟨rfl, rfl, rfl⟩

/-- CLAIM C6, as amended.  The converter-level `include_nones`,
`include_empty_strings` and `convert_nones_to_blanks` options are applied per
value after the converter step but before washers, `max_len` truncation and
sort: the code's post-conversion tail equals the pipeline that runs the
global-options stage first and the washers/truncation/sort stage second. -/
theorem c6_globals_before_washers (c : ConverterDef) (opts : Opts)
    (v2 : Option Val) :
    normalize_value_post c opts v2 = amended_spec_normalize_value_post c opts v2 := by
  cases v2 with
  | none => simp [normalize_value_post, amended_spec_normalize_value_post]
  | some v3 =>
    by_cases h1 : v3 = Val.vnone
    · subst h1
      by_cases hin : c.options.include_nones <;>
        by_cases hbl : c.options.convert_nones_to_blanks <;>
          by_cases hes : c.options.include_empty_strings <;>
            simp [normalize_value_post, amended_spec_normalize_value_post,
              globals_stage, hin, hbl, hes, isEmptyStr]
    · by_cases hes : c.options.include_empty_strings <;>
        by_cases hem : isEmptyStr v3 <;>
          simp [normalize_value_post, amended_spec_normalize_value_post,
            globals_stage, h1, hes, hem]

/-- Lookup after a single Python dict update. -/
theorem dictLookup_upsert (fs : List (String × Val)) (k : String) (v : Val)
    (q : String) :
    dictLookup (dictUpsert fs k v) q
      = if q = k then some v else dictLookup fs q := by
  induction fs with
  | nil =>
    simp only [dictUpsert, dictLookup]
    by_cases h : q = k
    · subst h
      simp
    · simp [h, Ne.symm h]
  | cons p rest ih =>
    obtain ⟨k1, v1⟩ := p
    simp only [dictUpsert]
    by_cases h1 : k1 = k
    · subst h1
      simp only [if_pos rfl, dictLookup]
      by_cases hq : k1 = q
      · subst hq
        simp
      · simp [hq, Ne.symm hq]
    · rw [if_neg h1]
      simp only [dictLookup]
      by_cases hq : k1 = q
      · subst hq
        simp [h1]
      · rw [if_neg hq, ih]
        by_cases h2 : q = k
        · simp [h2]
        · simp [h2, hq]

theorem mergeCtx_cons (a : Ctx) (p : String × Val) (rest : Ctx) :
    mergeCtx a (p :: rest) = mergeCtx (dictUpsert a p.1 p.2) rest := rfl

/-- A key absent from a dict is not found. -/
theorem dictLookup_eq_none_of_not_mem (fs : List (String × Val)) (q : String)
    (h : q ∉ fs.map Prod.fst) : dictLookup fs q = none := by
  induction fs with
  | nil => rfl
  | cons p rest ih =>
    obtain ⟨k1, v1⟩ := p
    simp only [List.map_cons, List.mem_cons, not_or] at h
    simp only [dictLookup]
    rw [if_neg (fun hh => h.1 hh.symm)]
    exact ih h.2

/-- Lookup in a Python dict merge `{**a, **b}`: keys of `b` override keys of
`a` (stated for `b` with the duplicate-free keys every Python dict has). -/
theorem dictLookup_mergeCtx (b a : Ctx) (k : String)
    (hb : (b.map Prod.fst).Nodup) :
    dictLookup (mergeCtx a b) k
      = match dictLookup b k with
        | some v => some v
        | none => dictLookup a k := by
  induction b generalizing a with
  | nil => simp [mergeCtx, dictLookup]
  | cons p rest ih =>
    obtain ⟨k1, v1⟩ := p
    simp only [List.map_cons, List.nodup_cons] at hb
    rw [mergeCtx_cons, ih _ hb.2, dictLookup_upsert]
    simp only [dictLookup]
    by_cases hk : k = k1
    · subst hk
      have hnone : dictLookup rest k = none :=
        dictLookup_eq_none_of_not_mem rest k hb.1
      simp [hnone]
    · rw [if_neg hk, if_neg (fun hh => hk hh.symm)]

/-- CLAIM C4, counterexample.  The claim states that an inherited context
value beats the value the child conversion's own `build_context` computes for
the same key.  In a nested conversion where the parent is invoked with
context `{'k': 'inherited'}` and the child's `build_context` returns
`{'k': 'built'}`, the child resolves `k` (absent from its own source) to
`'built'`: the merge `{**previous, **built, **caller}` lets the child's built
context override the inherited value. -/
theorem c4_built_context_beats_inherited_counterexample :
    converter_convert 100 c4Parent (.vdict [("sub", .vdict [])])
        (some [("k", .vstr "inherited")]) none [] ⟨[], 1⟩
      = (.ok (some (.vdict [("sub", .vdict [("k", .vstr "built")])])), ⟨[], 1⟩)
    ∧ Val.vstr "built" ≠ .vstr "inherited" :=
  ⟨rfl, by decide⟩

/-- CLAIM C4, as amended.  In a nested conversion a value present on the
child's own source under the rule's source path beats any context value of
the same name (the context is consulted only when the getter finds nothing),
and in the context installed for the child the precedence is caller-supplied
context over the child's built context over the inherited previous context —
so the child's built context overrides an inherited value of the same key
unless the parent explicitly passes it through as caller-supplied context. -/
theorem c4_context_precedence :
    (∀ (self : ConvSelf) (inst : Option Val) (fa : String) (opts : Opts)
       (ctx1 ctx2 : Ctx),
      opts.kwarg_override = none →
      opts.pass_instance_to_converter = false →
      opts.customGetter = none →
      fa ≠ NOS →
      (default_getter self.source self.source fa).isSome = true →
      get_value self inst fa opts ctx1 = get_value self inst fa opts ctx2)
    ∧ (∀ (old built caller : Ctx) (k : String),
      (built.map Prod.fst).Nodup →
      (caller.map Prod.fst).Nodup →
      dictLookup (mergeCtx (mergeCtx old built) caller) k
        = match dictLookup caller k with
          | some v => some v
          | none =>
            match dictLookup built k with
            | some v => some v
            | none => dictLookup old k) := by
  constructor
  · intro self inst fa opts ctx1 ctx2 hov hpass hget hfa hsome
    obtain ⟨v, hv⟩ := Option.isSome_iff_exists.mp hsome
    have hres : ∀ ctx : Ctx,
        resolve_pre_default self inst fa opts ctx = some v := by
      intro ctx
      unfold resolve_pre_default
      rw [hpass, hget]
      simp [hfa, hv]
    simp [get_value, hov, hres ctx1, hres ctx2]
  · intro old built caller k hb hc
    rw [dictLookup_mergeCtx _ _ _ hc, dictLookup_mergeCtx _ _ _ hb]

theorem c4_context_precedence_witness :
    (get_value ⟨dictConv [] {}, .vdict [("k", .vstr "src")], none, []⟩ none "k"
        emptyOpts [("k", .vstr "ctx")]
      = get_value ⟨dictConv [] {}, .vdict [("k", .vstr "src")], none, []⟩ none
          "k" emptyOpts [])
    ∧ dictLookup
        (mergeCtx (mergeCtx [("k", .vstr "old")] [("k", .vstr "built")]) []) "k"
      = match dictLookup ([] : Ctx) "k" with
        | some v => some v
        | none =>
          match dictLookup [("k", Val.vstr "built")] "k" with
          | some v => some v
          | none => dictLookup [("k", Val.vstr "old")] "k" :=
  ⟨c4_context_precedence.1
    ⟨dictConv [] {}, .vdict [("k", .vstr "src")], none, []⟩ none "k" emptyOpts
    [("k", .vstr "ctx")] [] rfl rfl rfl (by decide) rfl,
   c4_context_precedence.2 [("k", .vstr "old")] [("k", .vstr "built")] [] "k"
     (by decide) (by decide)⟩

/-- Canonical decimal character representation of a natural number (what
`Nat.toDigits 10` computes), phrased via `Nat.digits` for proofs. -/
def digitsRepr (n : Nat) : List Char :=
  if n = 0 then ['0'] else ((Nat.digits 10 n).map Nat.digitChar).reverse

theorem toDigitsCore_append (b : Nat) : ∀ (fuel n : Nat) (ds : List Char),
    Nat.toDigitsCore b fuel n ds = Nat.toDigitsCore b fuel n [] ++ ds := by
  intro fuel
  induction fuel with
  | zero => intro n ds; rfl
  | succ f ih =>
    intro n ds
    simp only [Nat.toDigitsCore]
    by_cases h : n / b = 0
    · simp [h]
    · rw [if_neg h, if_neg h, ih (n / b) (Nat.digitChar (n % b) :: ds),
        ih (n / b) [Nat.digitChar (n % b)]]
      simp

theorem toDigitsCore_eq_digitsRepr :
    ∀ (fuel n : Nat), n < fuel →
      Nat.toDigitsCore 10 fuel n [] = digitsRepr n := by
  intro fuel
  induction fuel with
  | zero => intro n h; omega
  | succ f ih =>
    intro n h
    simp only [Nat.toDigitsCore]
    by_cases h0 : n / 10 = 0
    · rw [if_pos h0]
      by_cases hn : n = 0
      · subst hn
        have hz : Nat.digitChar (0 % 10) = '0' := by decide
        simp [digitsRepr, hz]
      · have hlt : n < 10 := by
          by_contra hge
          push_neg at hge
          have := Nat.div_pos hge (by norm_num : (0 : Nat) < 10)
          omega
        have hmod : n % 10 = n := Nat.mod_eq_of_lt hlt
        unfold digitsRepr
        rw [if_neg hn,
          Nat.digits_def' (by norm_num : (1 : Nat) < 10)
            (Nat.pos_of_ne_zero hn), h0]
        simp [hmod]
    · rw [if_neg h0]
      have hn : n ≠ 0 := by
        intro hh
        subst hh
        simp at h0
      have hstep : n / 10 < f := by
        have h1 : n / 10 < n :=
          Nat.div_lt_self (Nat.pos_of_ne_zero hn) (by norm_num)
        omega
      rw [toDigitsCore_append 10 f (n / 10), ih (n / 10) hstep]
      unfold digitsRepr
      rw [if_neg hn, if_neg h0,
        Nat.digits_def' (by norm_num : (1 : Nat) < 10)
          (Nat.pos_of_ne_zero hn)]
      simp

/-- Inverse of `Nat.digitChar` on decimal digits. -/
def digitOfChar (c : Char) : Nat :=
  if c = '0' then 0 else if c = '1' then 1 else if c = '2' then 2
  else if c = '3' then 3 else if c = '4' then 4 else if c = '5' then 5
  else if c = '6' then 6 else if c = '7' then 7 else if c = '8' then 8
  else if c = '9' then 9 else 0

theorem digitOfChar_digitChar :
    ∀ d : Fin 10, digitOfChar (Nat.digitChar d.val) = d.val := by
  decide

theorem map_digitChar_inj :
    ∀ (l1 l2 : List Nat), (∀ d ∈ l1, d < 10) → (∀ d ∈ l2, d < 10) →
      l1.map Nat.digitChar = l2.map Nat.digitChar → l1 = l2 := by
  intro l1
  induction l1 with
  | nil =>
    intro l2 _ _ h
    cases l2 with
    | nil => rfl
    | cons d2 rest2 => simp at h
  | cons d rest ih =>
    intro l2 h1 h2 h
    cases l2 with
    | nil => simp at h
    | cons d2 rest2 =>
      simp only [List.map_cons, List.cons.injEq] at h
      have hd : d = d2 := by
        have e1 := digitOfChar_digitChar ⟨d, h1 d (List.mem_cons_self d rest)⟩
        have e2 := digitOfChar_digitChar
          ⟨d2, h2 d2 (List.mem_cons_self d2 rest2)⟩
        have e3 := congrArg digitOfChar h.1
        rw [e1, e2] at e3
        exact e3
      subst hd
      have := ih rest2 (fun x hx => h1 x (List.mem_cons_of_mem _ hx))
        (fun x hx => h2 x (List.mem_cons_of_mem _ hx)) h.2
      rw [this]

theorem digitsRepr_ne_zero_case (n : Nat) (hn : n ≠ 0) :
    digitsRepr n ≠ ['0'] := by
  intro h
  unfold digitsRepr at h
  rw [if_neg hn] at h
  have h' := congrArg List.reverse h
  simp only [List.reverse_reverse] at h'
  cases hd : Nat.digits 10 n with
  | nil =>
    rw [hd] at h'
    simp at h'
  | cons d rest =>
    rw [hd] at h'
    cases rest with
    | nil =>
      have hchar : Nat.digitChar d = '0' := by
        simpa using h'
      have hdlt : d < 10 :=
        Nat.digits_lt_base (by norm_num) (hd ▸ List.mem_cons_self d [])
      have e1 := digitOfChar_digitChar ⟨d, hdlt⟩
      have e2 : digitOfChar '0' = 0 := by decide
      have e3 := congrArg digitOfChar hchar
      rw [e1, e2] at e3
      subst e3
      have hofd := Nat.ofDigits_digits 10 n
      rw [hd] at hofd
      simp [Nat.ofDigits_cons, Nat.ofDigits_nil] at hofd
      exact hn hofd.symm
    | cons d2 rest2 =>
      simp at h'

theorem digitsRepr_inj (m n : Nat) (h : digitsRepr m = digitsRepr n) :
    m = n := by
  by_cases hm : m = 0 <;> by_cases hn : n = 0
  · omega
  · subst hm
    have : digitsRepr 0 = ['0'] := by simp [digitsRepr]
    rw [this] at h
    exact absurd h.symm (digitsRepr_ne_zero_case n hn)
  · subst hn
    have : digitsRepr 0 = ['0'] := by simp [digitsRepr]
    rw [this] at h
    exact absurd h (digitsRepr_ne_zero_case m hm)
  · unfold digitsRepr at h
    rw [if_neg hm, if_neg hn] at h
    have h2 := List.reverse_injective h
    have h3 := map_digitChar_inj (Nat.digits 10 m) (Nat.digits 10 n)
      (fun d hd => Nat.digits_lt_base (by norm_num) hd)
      (fun d hd => Nat.digits_lt_base (by norm_num) hd) h2
    calc m = Nat.ofDigits 10 (Nat.digits 10 m) :=
        (Nat.ofDigits_digits 10 m).symm
      _ = Nat.ofDigits 10 (Nat.digits 10 n) := by rw [h3]
      _ = n := Nat.ofDigits_digits 10 n

theorem natRepr_injective : Function.Injective Nat.repr := by
  intro m n h
  apply digitsRepr_inj
  have hm := toDigitsCore_eq_digitsRepr (m + 1) m (Nat.lt_succ_self m)
  have hn := toDigitsCore_eq_digitsRepr (n + 1) n (Nat.lt_succ_self n)
  unfold Nat.repr Nat.toDigits at h
  rw [hm, hn] at h
  have := congrArg String.data h
  simpa [List.asString] using this

/-- Fresh generated destination names are pairwise distinct: `freshName` is
injective. -/
theorem freshName_injective : Function.Injective freshName := by
  intro m n h
  apply natRepr_injective
  unfold freshName at h
  have hd := congrArg String.data h
  have hd2 : ("-not-on-dest-").data ++ (Nat.repr m).data
      = ("-not-on-dest-").data ++ (Nat.repr n).data := hd
  have := List.append_cancel_left hd2
  cases hm : Nat.repr m with
  | mk l1 =>
    cases hn : Nat.repr n with
    | mk l2 =>
      rw [hm, hn] at this
      simp only at this
      rw [this]

/-- Per-rule agreement of the code's normalization with the amended
expansion table. -/
theorem normalize_single_eq_amended_table (dif : Option DefaultSpec)
    (field : RawRule) (ctr : Nat) :
    normalize_single_copy_attr dif field ctr
      = spec_table_normalize_single true dif field ctr := by
  cases field with
  | rstr s => rfl
  | rcallable f => rfl
  | rcall0 g => rfl
  | rconv c => rfl
  | rseq fs =>
    cases fs with
    | nil => rfl
    | cons e0 rest0 =>
      cases rest0 with
      | nil => rfl
      | cons e1 rest1 =>
        cases rest1 with
        | nil => cases e1 <;> rfl
        | cons e2 rest2 =>
          cases rest2 with
          | nil => cases e1 <;> cases e2 <;> rfl
          | cons e3 rest3 => rfl

/-- Whole-pass agreement of the code's normalization with the amended
table. -/
theorem normalize_eq_amended_table (dif : Option DefaultSpec)
    (rules : List RawRule) (ctr : Nat) :
    normalize_copy_attrs dif rules ctr
      = spec_table_normalize true dif rules ctr := by
  induction rules generalizing ctr with
  | nil => rfl
  | cons r rest ih =>
    simp only [normalize_copy_attrs, spec_table_normalize,
      normalize_single_eq_amended_table]
    cases h : spec_table_normalize_single true dif r ctr with
    | error e => rfl
    | ok p =>
      obtain ⟨t, c1⟩ := p
      dsimp only
      cases hd : t.2.2.default with
      | none => rw [ih]
      | some d =>
        by_cases hv : defaultIsValid d
        · simp only [hv, if_true]
          rw [ih]
        · simp only [hv, Bool.false_eq_true, if_false]

/-- A single normalization step either leaves the counter alone, or consumes
exactly one fresh counter value and uses `freshName ctr` as the generated
destination. -/
theorem normalize_single_counter (dif : Option DefaultSpec) (field : RawRule)
    (ctr : Nat) (t : CanonRule) (ctr1 : Nat)
    (h : normalize_single_copy_attr dif field ctr = .ok (t, ctr1)) :
    ctr1 = ctr ∨ (ctr1 = ctr + 1 ∧ t.1 = freshName ctr) := by
  cases field with
  | rstr s =>
    simp only [normalize_single_copy_attr, Except.ok.injEq, Prod.mk.injEq]
      at h
    exact Or.inl h.2.symm
  | rcallable f =>
    simp only [normalize_single_copy_attr, Except.ok.injEq, Prod.mk.injEq]
      at h
    exact Or.inr ⟨h.2.symm, by rw [← h.1]⟩
  | rcall0 g =>
    simp only [normalize_single_copy_attr, Except.ok.injEq, Prod.mk.injEq]
      at h
    exact Or.inr ⟨h.2.symm, by rw [← h.1]⟩
  | rconv c =>
    simp only [normalize_single_copy_attr, Except.ok.injEq, Prod.mk.injEq]
      at h
    exact Or.inr ⟨h.2.symm, by rw [← h.1]⟩
  | rseq fs =>
    cases fs with
    | nil => simp [normalize_single_copy_attr] at h
    | cons e0 rest0 =>
      cases rest0 with
      | nil =>
        cases e0 <;>
          simp only [normalize_single_copy_attr, Except.ok.injEq,
            Prod.mk.injEq] at h <;>
          first
          | exact Or.inl h.2.symm
          | exact Except.noConfusion h
      | cons e1 rest1 =>
        cases rest1 with
        | nil =>
          cases e1 <;> cases e0 <;> (try cases dif) <;>
            simp only [normalize_single_copy_attr, Except.ok.injEq,
              Prod.mk.injEq] at h <;>
            first
            | exact Or.inl h.2.symm
            | exact Except.noConfusion h
        | cons e2 rest2 =>
          cases rest2 with
          | cons e3 rest3 => simp [normalize_single_copy_attr] at h
          | nil =>
            by_cases htr : fieldTruthy e0 = true
            · have hdst : ∃ s, e0 = FieldElem.fstr s ∧ s ≠ "" := by
                cases e0 with
                | fstr s =>
                  refine ⟨s, rfl, ?_⟩
                  simpa [fieldTruthy] using htr
                | fnone => simp [fieldTruthy] at htr
                | fnos =>
                  exfalso
                  simp [normalize_single_copy_attr, htr] at h
                | fint n =>
                  exfalso
                  simp [normalize_single_copy_attr, htr] at h
                | fcallable f =>
                  exfalso
                  simp [normalize_single_copy_attr, htr] at h
                | fcall0 g =>
                  exfalso
                  simp [normalize_single_copy_attr, htr] at h
                | fconv cc =>
                  exfalso
                  simp [normalize_single_copy_attr, htr] at h
                | fopts o =>
                  exfalso
                  simp [normalize_single_copy_attr, htr] at h
              obtain ⟨s, he0, hs⟩ := hdst
              subst he0
              simp only [normalize_single_copy_attr, htr, if_true] at h
              cases e1 <;> cases e2 <;>
                (try simp only [fieldAsDefault, Except.ok.injEq,
                  Prod.mk.injEq] at h) <;>
                first
                | exact Or.inl h.2.symm
                | exact Except.noConfusion h
            · have htr' : fieldTruthy e0 = false := by simpa using htr
              simp only [normalize_single_copy_attr, htr',
                Bool.false_eq_true, if_false] at h
              cases e1 <;> cases e2 <;>
                (try simp only [fieldAsDefault, Except.ok.injEq,
                  Prod.mk.injEq] at h) <;>
                first
                | exact Or.inr ⟨h.2.symm, by rw [← h.1]⟩
                | exact Except.noConfusion h

/-- The fresh-name counter never decreases across a normalization pass. -/
theorem normalize_counter_mono (dif : Option DefaultSpec) :
    ∀ (rules : List RawRule) (ctr : Nat) (out : List CanonRule) (ctr' : Nat),
      normalize_copy_attrs dif rules ctr = .ok (out, ctr') → ctr ≤ ctr' := by
  intro rules
  induction rules with
  | nil =>
    intro ctr out ctr' h
    simp only [normalize_copy_attrs, Except.ok.injEq, Prod.mk.injEq] at h
    omega
  | cons r rest ih =>
    intro ctr out ctr' h
    simp only [normalize_copy_attrs] at h
    cases hs : normalize_single_copy_attr dif r ctr with
    | error e =>
      rw [hs] at h
      exact Except.noConfusion h
    | ok p =>
      obtain ⟨t, c1⟩ := p
      rw [hs] at h
      dsimp only at h
      have hc1 : ctr ≤ c1 := by
        rcases normalize_single_counter dif r ctr t c1 hs with h1 | h1
        · omega
        · omega
      cases hd : t.2.2.default with
      | none =>
        rw [hd] at h
        cases hr : normalize_copy_attrs dif rest c1 with
        | error e =>
          rw [hr] at h
          exact Except.noConfusion h
        | ok p2 =>
          obtain ⟨out2, c2⟩ := p2
          rw [hr] at h
          have := ih c1 out2 c2 hr
          simp only [Except.ok.injEq, Prod.mk.injEq] at h
          omega
      | some d =>
        rw [hd] at h
        by_cases hv : defaultIsValid d
        · simp only [hv, if_true] at h
          cases hr : normalize_copy_attrs dif rest c1 with
          | error e =>
            rw [hr] at h
            exact Except.noConfusion h
          | ok p2 =>
            obtain ⟨out2, c2⟩ := p2
            rw [hr] at h
            have := ih c1 out2 c2 hr
            simp only [Except.ok.injEq, Prod.mk.injEq] at h
            omega
        · simp only [hv, Bool.false_eq_true, if_false] at h
          exact Except.noConfusion h

/-- CLAIM C2, counterexample.  The claim's expansion table, applied in its
stated priority order, sends a 3-element rule `('x', NOS, mapping)` through
the NOS-default row, producing a mapping-typed default which the
post-expansion validation rejects; and a 2-element rule whose second element
is `None` falls off the table into an `InvalidRuleSpec`-kind failure.  The
code instead treats `('x', NOS, {})` through the options-mapping branch and
accepts it, and fails on `('x', None)` with an `AttributeError` raised by
`opts.get` on the non-mapping options value. -/
theorem c2_table_priority_counterexample :
    normalize_copy_attrs none [.rseq [.fstr "x", .fnos, .fopts emptyOpts]] 1
      = .ok ([("x", NOS, emptyOpts)], 1)
    ∧ spec_table_normalize false none
        [.rseq [.fstr "x", .fnos, .fopts emptyOpts]] 1
      = .error .typeErrorBadDefault
    ∧ normalize_copy_attrs none [.rseq [.fstr "x", .fnone]] 1
      = .error .attributeError
    ∧ spec_table_normalize false none [.rseq [.fstr "x", .fnone]] 1
      = .error .invalidRuleSpec :=
  ⟨rfl, rfl, rfl, rfl⟩

/-- CLAIM C2, as amended.  Rule normalization equals the section 4.1
expansion table amended in two spots: the options-mapping row takes priority
over the NOS-default row for 3-element rules, and a 2-element rule whose
second element is not `NOS`, a string, a callable or a mapping fails with an
attribute-access error rather than a rule-shape error (first conjunct,
including the interleaved post-expansion validation that a present default is
a callable, number or string).  Fresh generated names never collide within a
pass: `freshName` is injective (second conjunct), a single step that
generates a name consumes exactly the current counter value for it (third
conjunct), and the counter threads monotonically through a pass (fourth
conjunct), so every generated name in a pass comes from a distinct counter
value. -/
theorem c2_normalization_table :
    (∀ (dif : Option DefaultSpec) (rules : List RawRule) (ctr : Nat),
      normalize_copy_attrs dif rules ctr
        = spec_table_normalize true dif rules ctr)
    ∧ Function.Injective freshName
    ∧ (∀ (dif : Option DefaultSpec) (field : RawRule) (ctr : Nat)
         (t : CanonRule) (ctr1 : Nat),
        normalize_single_copy_attr dif field ctr = .ok (t, ctr1) →
        ctr1 = ctr ∨ (ctr1 = ctr + 1 ∧ t.1 = freshName ctr))
    ∧ (∀ (dif : Option DefaultSpec) (rules : List RawRule) (ctr : Nat)
         (out : List CanonRule) (ctr' : Nat),
        normalize_copy_attrs dif rules ctr = .ok (out, ctr') → ctr ≤ ctr') :=
  ⟨normalize_eq_amended_table, freshName_injective, normalize_single_counter,
    normalize_counter_mono⟩

theorem c2_normalization_table_witness :
    (2 = 1 ∨ (2 = 1 + 1 ∧ ((freshName 1, "self",
        converterOpts (.cfun fun v => v)) : CanonRule).1 = freshName 1))
    ∧ (1 : Nat) ≤ 1 :=
  ⟨c2_normalization_table.2.2.1 none (.rcallable fun v => v) 1
      (freshName 1, "self", converterOpts (.cfun fun v => v)) 2 rfl,
    c2_normalization_table.2.2.2 none [.rstr "a"] 1 [("a", "a", emptyOpts)] 1
      rfl⟩

/-- Every default present in the output of a normalization pass has passed
the post-expansion validation. -/
theorem normalize_output_defaults_valid (dif : Option DefaultSpec) :
    ∀ (rules : List RawRule) (ctr : Nat) (out : List CanonRule) (ctr' : Nat),
      normalize_copy_attrs dif rules ctr = .ok (out, ctr') →
      ∀ t ∈ out, ∀ d, t.2.2.default = some d → defaultIsValid d = true := by
  intro rules
  induction rules with
  | nil =>
    intro ctr out ctr' h t ht d hd
    simp only [normalize_copy_attrs, Except.ok.injEq, Prod.mk.injEq] at h
    rw [← h.1] at ht
    simp at ht
  | cons r rest ih =>
    intro ctr out ctr' h t ht d hd
    simp only [normalize_copy_attrs] at h
    cases hs : normalize_single_copy_attr dif r ctr with
    | error e =>
      rw [hs] at h
      exact Except.noConfusion h
    | ok p =>
      obtain ⟨t0, c1⟩ := p
      rw [hs] at h
      dsimp only at h
      cases hd0 : t0.2.2.default with
      | none =>
        rw [hd0] at h
        cases hr : normalize_copy_attrs dif rest c1 with
        | error e =>
          rw [hr] at h
          exact Except.noConfusion h
        | ok p2 =>
          obtain ⟨out2, c2⟩ := p2
          rw [hr] at h
          simp only [Except.ok.injEq, Prod.mk.injEq] at h
          rw [← h.1] at ht
          rcases List.mem_cons.mp ht with he | he
          · subst he
            rw [hd0] at hd
            exact Option.noConfusion hd
          · exact ih c1 out2 c2 hr t he d hd
      | some d0 =>
        rw [hd0] at h
        by_cases hv : defaultIsValid d0
        · simp only [hv, if_true] at h
          cases hr : normalize_copy_attrs dif rest c1 with
          | error e =>
            rw [hr] at h
            exact Except.noConfusion h
          | ok p2 =>
            obtain ⟨out2, c2⟩ := p2
            rw [hr] at h
            simp only [Except.ok.injEq, Prod.mk.injEq] at h
            rw [← h.1] at ht
            rcases List.mem_cons.mp ht with he | he
            · subst he
              rw [hd0] at hd
              rw [← Option.some.inj hd]
              exact hv
            · exact ih c1 out2 c2 hr t he d hd
        · simp only [hv, Bool.false_eq_true, if_false] at h
          exact Except.noConfusion h

/-- Re-normalizing one canonical triple with a non-empty destination
reproduces it and leaves the counter alone. -/
theorem normalize_single_canonToRaw (dif : Option DefaultSpec)
    (t : CanonRule) (ctr : Nat) (ht : t.1 ≠ "") :
    normalize_single_copy_attr dif (canonToRaw t) ctr = .ok (t, ctr) := by
  have htr : fieldTruthy (.fstr t.1) = true := by
    simp [fieldTruthy, ht]
  simp [normalize_single_copy_attr, canonToRaw, htr]

/-- CLAIM C9, counterexample.  The claim states that normalization is
idempotent on every accepted input, and in particular that an
already-canonical rule list re-normalizes to itself.  The canonical triple
`('', 'y', {})` (produced, for instance, by normalizing the accepted 2-tuple
`('', 'y')`) re-normalizes to a fresh generated destination, because the
3-element branch replaces a falsy destination by
`_next_not_on_dest_attr()`. -/
theorem c9_not_idempotent_counterexample :
    normalize_copy_attrs none [.rseq [.fstr "", .fstr "y"]] 1
      = .ok ([("", "y", emptyOpts)], 1)
    ∧ normalize_copy_attrs none ([(("", "y", emptyOpts) : CanonRule)].map
        canonToRaw) 1
      = .ok ([(freshName 1, "y", emptyOpts)], 2)
    ∧ freshName 1 ≠ "" :=
  ⟨rfl, rfl, by decide⟩

/-- CLAIM C9, as amended.  Normalization is idempotent on canonical output
whose destinations are all non-empty: if a pass yields `out` and every
destination in `out` is a non-empty string, then re-normalizing `out` (at any
counter) yields `out` unchanged with the counter untouched.  An empty-string
destination is the one exception: the re-normalization replaces it by a fresh
generated name. -/
theorem c9_normalization_idempotent (dif : Option DefaultSpec)
    (rules : List RawRule) (ctr : Nat) (out : List CanonRule)
    (ctr' ctr2 : Nat)
    (h : normalize_copy_attrs dif rules ctr = .ok (out, ctr'))
    (hne : ∀ t ∈ out, t.1 ≠ "") :
    normalize_copy_attrs dif (out.map canonToRaw) ctr2 = .ok (out, ctr2) := by
  have hval := normalize_output_defaults_valid dif rules ctr out ctr' h
  clear h
  induction out generalizing ctr2 with
  | nil => rfl
  | cons t rest ih =>
    have ht : t.1 ≠ "" := hne t (List.mem_cons_self t rest)
    simp only [List.map_cons, normalize_copy_attrs,
      normalize_single_canonToRaw dif t ctr2 ht]
    cases hd : t.2.2.default with
    | none =>
      rw [ih ctr2 (fun x hx => hne x (List.mem_cons_of_mem t hx))
        (fun x hx => hval x (List.mem_cons_of_mem t hx))]
    | some d =>
      have hv := hval t (List.mem_cons_self t rest) d hd
      simp only [hv, if_true]
      rw [ih ctr2 (fun x hx => hne x (List.mem_cons_of_mem t hx))
        (fun x hx => hval x (List.mem_cons_of_mem t hx))]

theorem c9_normalization_idempotent_witness :
    normalize_copy_attrs none ([(("a", "a", emptyOpts) : CanonRule)].map
        canonToRaw) 5
      = .ok ([("a", "a", emptyOpts)], 5) :=
  c9_normalization_idempotent none [.rstr "a"] 1 [("a", "a", emptyOpts)] 1 5
    rfl (by
      intro t ht
      simp only [List.mem_singleton] at ht
      subst ht
      decide)
